import Mathlib

/-!
Shallow embedding of the knowledge-graph engine of the qualitative-research
server (`KnowledgeGraphManager` and its validation helpers), together with
proofs about its mutation, search, status/priority, chronology and
co-occurrence operations.

Strings are modelled by Lean `String`; the character-level helpers below
(`jsToLowerStr`, `jsSplitWs`, `jsSplitChar`, `jsIncludes`, `jsStartsWith`,
`jsTrim`) are faithful embeddings of the JavaScript string primitives the
source uses (`toLowerCase`, `split(/\s+/)`, `split(":")`, `includes`,
`startsWith`, `trim`), written over `String.data` so that every definition
evaluates by kernel reduction.  Machine-level `number` values never occur in
the modelled fragment except as dates, handled in `getChronologicalData`.
-/

/-- `Entity` record of the source: `{ name, entityType, observations }`. -/
structure Entity where
  name : String
  entityType : String
  observations : List String
  deriving DecidableEq, Repr

/-- `Relation` record of the source: `{ from, to, relationType }`. -/
structure Relation where
  «from» : String
  «to» : String
  relationType : String
  deriving DecidableEq, Repr

/-- `KnowledgeGraph` record of the source: `{ entities, relations }`. -/
structure KnowledgeGraph where
  entities : List Entity
  relations : List Relation
  deriving DecidableEq, Repr

/-- `VALID_ENTITY_TYPES` of the source. -/
def VALID_ENTITY_TYPES : List String :=
  ["project", "participant", "interview", "observation", "document",
   "code", "codeGroup", "memo", "theme", "quote", "literature",
   "researchQuestion", "finding", "status", "priority"]

/-- `VALID_RELATION_TYPES` of the source. -/
def VALID_RELATION_TYPES : List String :=
  ["participated_in", "codes", "contains", "supports", "contradicts",
   "answers", "cites", "followed_by", "related_to", "reflects_on",
   "compares", "conducted_by", "transcribed_by", "part_of", "derived_from",
   "collected_on", "analyzes", "triangulates_with", "has_status",
   "has_priority", "precedes"]

/-- `VALID_STATUS_VALUES` of the source. -/
def VALID_STATUS_VALUES : List String :=
  ["planning", "data_collection", "analysis", "writing", "complete",
   "scheduled", "conducted", "transcribed", "coded", "analyzed",
   "planned", "documented",
   "initial", "revised", "final",
   "emerging", "developing", "established",
   "preliminary", "draft",
   "active", "in_progress", "not_started"]

/-- `VALID_PRIORITY_VALUES` of the source. -/
def VALID_PRIORITY_VALUES : List String := ["high", "low"]

/-- `validateEntityType` of the source. -/
def validateEntityType (entityType : String) : Bool :=
  VALID_ENTITY_TYPES.contains entityType

/-- `validateRelationType` of the source. -/
def validateRelationType (relationType : String) : Bool :=
  VALID_RELATION_TYPES.contains relationType

/-- Names of the entities of a graph (`graph.entities.map(e => e.name)`). -/
def entityNames (g : KnowledgeGraph) : List String :=
  g.entities.map (·.name)

/-- The empty graph `{ entities: [], relations: [] }`. -/
def emptyKG : KnowledgeGraph := { entities := [], relations := [] }

/-- Read failures the underlying `fs.readFile` / `JSON.parse` stage can
produce: the file is absent (`ENOENT`), the file content is not valid JSON,
or any other I/O failure. -/
inductive ReadError where
  | enoent
  | parseFailure
  | ioFailure
  deriving DecidableEq, Repr

/-- `loadGraph` of the source.  The argument is the outcome of the
`fs.readFile` + `JSON.parse` stage; the source wraps that stage in
`try ... catch` and returns the empty graph from the `catch` arm,
so every `ReadError` is mapped to the empty graph. -/
def loadGraph (r : Except ReadError KnowledgeGraph) : KnowledgeGraph :=
  match r with
  | .ok g => g
  | .error _ => { entities := [], relations := [] }

/-! ### Character-level embeddings of the JavaScript string primitives -/

/-- Embedding of JavaScript `String.prototype.toLowerCase` (character map). -/
def jsToLowerStr (s : String) : String :=
  String.mk (s.data.map Char.toLower)

/-- Boolean prefix test on character lists. -/
def listIsPrefixB : List Char → List Char → Bool
  | [], _ => true
  | _ :: _, [] => false
  | a :: as, b :: bs => a == b && listIsPrefixB as bs

/-- Boolean infix test on character lists. -/
def listIsInfixB (pat : List Char) : List Char → Bool
  | [] => listIsPrefixB pat []
  | c :: cs => listIsPrefixB pat (c :: cs) || listIsInfixB pat cs

/-- Embedding of JavaScript `hay.includes(pat)`. -/
def jsIncludes (hay pat : String) : Bool :=
  listIsInfixB pat.data hay.data

/-- Embedding of JavaScript `s.startsWith(pre)`. -/
def jsStartsWith (s pre : String) : Bool :=
  listIsPrefixB pre.data s.data

/-- Embedding of JavaScript `s.trim()`. -/
def jsTrim (s : String) : String :=
  String.mk (((s.data.dropWhile Char.isWhitespace).reverse.dropWhile
    Char.isWhitespace).reverse)

/-- Worker for `jsSplitChar`: splits on every occurrence of `sep`. -/
def splitCharAux (sep : Char) : List Char → List Char → List String
  | [], acc => [String.mk acc.reverse]
  | c :: cs, acc =>
    if c == sep then String.mk acc.reverse :: splitCharAux sep cs []
    else splitCharAux sep cs (c :: acc)

/-- Embedding of JavaScript `s.split(sep)` for a single-character
separator (as in the source's `split(":")`). -/
def jsSplitChar (sep : Char) (s : String) : List String :=
  splitCharAux sep s.data []

/-- Worker for `jsSplitWs`.  `inSep` records whether the previous character
belonged to a whitespace run, so that a run of whitespace produces a single
boundary (the `+` of the regular expression `\s+`). -/
def splitWsAux : List Char → List Char → Bool → List String
  | [], acc, _ => [String.mk acc.reverse]
  | c :: cs, acc, inSep =>
    if c.isWhitespace then
      if inSep then splitWsAux cs [] true
      else String.mk acc.reverse :: splitWsAux cs [] true
    else splitWsAux cs (c :: acc) false

/-- Embedding of JavaScript `s.split(/\s+/)`: splits on maximal whitespace
runs, keeping the empty boundary pieces JavaScript produces when the string
starts or ends with whitespace (and `[""]` for the empty string). -/
def jsSplitWs (s : String) : List String :=
  splitWsAux s.data [] false

/-! ### Mutation engine -/

/-- `createEntities` of the source: validates every `entityType` (the
`forEach` throws at the first invalid one, before any mutation), then
inserts exactly the entities whose name is not already present. -/
def createEntities (g : KnowledgeGraph) (entities : List Entity) :
    Except String (KnowledgeGraph × List Entity) :=
  match entities.find? (fun e => ! validateEntityType e.entityType) with
  | some e => .error ("Invalid entity type: " ++ e.entityType)
  | none =>
    let newEntities := entities.filter
      (fun e => ! (entityNames g).contains e.name)
    .ok ({ g with entities := g.entities ++ newEntities }, newEntities)

/-- The duplicate key `from:to:relationType` the source computes for a
relation. -/
def relKey (r : Relation) : String :=
  r.«from» ++ ":" ++ r.«to» ++ ":" ++ r.relationType

/-- The validation `forEach` of `createRelations`: per relation, first the
`from` endpoint, then the `to` endpoint, then the relation type. -/
def validateRelations (names : List String) : List Relation → Except String Unit
  | [] => .ok ()
  | r :: rest =>
    if ! names.contains r.«from» then
      .error ("Entity not found: " ++ r.«from»)
    else if ! names.contains r.«to» then
      .error ("Entity not found: " ++ r.«to»)
    else if ! validateRelationType r.relationType then
      .error ("Invalid relation type: " ++ r.relationType)
    else validateRelations names rest

/-- `createRelations` of the source: validates endpoints and types, then
inserts exactly the relations whose `(from,to,relationType)` key is not
already present. -/
def createRelations (g : KnowledgeGraph) (relations : List Relation) :
    Except String (KnowledgeGraph × List Relation) :=
  match validateRelations (entityNames g) relations with
  | .error e => .error e
  | .ok _ =>
    let existingKeys := g.relations.map relKey
    let newRelations := relations.filter
      (fun r => ! existingKeys.contains (relKey r))
    .ok ({ g with relations := g.relations ++ newRelations }, newRelations)

/-- One input item of `addObservations`. -/
structure ObservationAdd where
  entityName : String
  contents : List String
  deriving DecidableEq, Repr

/-- One result item of `addObservations`. -/
structure ObservationResult where
  entityName : String
  addedObservations : List String
  deriving DecidableEq, Repr

/-- Appends `newObs` to the observations of the first entity named `n`
(the source mutates the object returned by `entities.find`). -/
def appendObsFirst (n : String) (newObs : List String) :
    List Entity → List Entity
  | [] => []
  | e :: rest =>
    if e.name == n then
      { e with observations := e.observations ++ newObs } :: rest
    else e :: appendObsFirst n newObs rest

/-- The sequential `for ... of` loop of `addObservations`: each item is
looked up in the current graph, its not-yet-present contents are appended,
and a missing entity throws (so the partially mutated in-memory graph is
discarded, because `saveGraph` is never reached). -/
def addObservationsAux (g : KnowledgeGraph) :
    List ObservationAdd → Except String (KnowledgeGraph × List ObservationResult)
  | [] => .ok (g, [])
  | item :: rest =>
    match g.entities.find? (fun e => e.name == item.entityName) with
    | none => .error ("Entity not found: " ++ item.entityName)
    | some entity =>
      let newObservations :=
        item.contents.filter (fun o => ! entity.observations.contains o)
      let g' : KnowledgeGraph :=
        { g with entities := appendObsFirst item.entityName newObservations g.entities }
      match addObservationsAux g' rest with
      | .error e => .error e
      | .ok (gf, results) =>
        .ok (gf, { entityName := item.entityName,
                   addedObservations := newObservations } :: results)

/-- `addObservations` of the source. -/
def addObservations (g : KnowledgeGraph) (observations : List ObservationAdd) :
    Except String (KnowledgeGraph × List ObservationResult) :=
  addObservationsAux g observations

/-- `deleteEntities` of the source: removes the named entities and every
relation with a deleted name on either side; total, never throws. -/
def deleteEntities (g : KnowledgeGraph) (entityNames : List String) :
    KnowledgeGraph :=
  { entities := g.entities.filter (fun e => ! entityNames.contains e.name),
    relations := g.relations.filter (fun r =>
      ! entityNames.contains r.«from» && ! entityNames.contains r.«to») }

/-- One input item of `deleteObservations`. -/
structure ObservationDeletion where
  entityName : String
  observations : List String
  deriving DecidableEq, Repr

/-- Removes the listed observations from the first entity named `n`. -/
def removeObsFirst (n : String) (obs : List String) :
    List Entity → List Entity
  | [] => []
  | e :: rest =>
    if e.name == n then
      { e with observations := e.observations.filter (fun o => ! obs.contains o) } :: rest
    else e :: removeObsFirst n obs rest

/-- `deleteObservations` of the source: missing entities are silent no-ops. -/
def deleteObservations (g : KnowledgeGraph)
    (deletions : List ObservationDeletion) : KnowledgeGraph :=
  deletions.foldl
    (fun g d =>
      if g.entities.any (fun e => e.name == d.entityName) then
        { g with entities := removeObsFirst d.entityName d.observations g.entities }
      else g)
    g

/-- `deleteRelations` of the source: removes exact-triple matches. -/
def deleteRelations (g : KnowledgeGraph) (relations : List Relation) :
    KnowledgeGraph :=
  { g with relations := (g.relations.filter (fun r => ! relations.any
      (fun d => r.«from» == d.«from» && r.«to» == d.«to» &&
        r.relationType == d.relationType))) }

/-! ### Status / priority subsystem -/

/-- One iteration of the status loop of `initializeStatusAndPriority`. -/
def ensureStatusEntity (es : List Entity) (v : String) : List Entity :=
  let nm := "status:" ++ v
  if es.any (fun e => e.name == nm && e.entityType == "status") then es
  else es ++ [{ name := nm, entityType := "status",
                observations := ["A " ++ v ++ " status value"] }]

/-- One iteration of the priority loop of `initializeStatusAndPriority`. -/
def ensurePriorityEntity (es : List Entity) (v : String) : List Entity :=
  let nm := "priority:" ++ v
  if es.any (fun e => e.name == nm && e.entityType == "priority") then es
  else es ++ [{ name := nm, entityType := "priority",
                observations := ["A " ++ v ++ " priority value"] }]

/-- `initializeStatusAndPriority` of the source. -/
def initializeStatusAndPriority (g : KnowledgeGraph) : KnowledgeGraph :=
  { g with entities := (VALID_PRIORITY_VALUES.foldl ensurePriorityEntity
      (VALID_STATUS_VALUES.foldl ensureStatusEntity g.entities)) }

/-- `getEntityStatus` of the source: first `has_status` relation out of
`entityName`, and the `split(":")[1]` segment of its target. -/
def getEntityStatus (g : KnowledgeGraph) (entityName : String) : Option String :=
  (g.relations.find?
    (fun r => r.«from» == entityName && r.relationType == "has_status")).bind
    (fun r => (jsSplitChar ':' r.«to»).get? 1)

/-- `getEntityPriority` of the source. -/
def getEntityPriority (g : KnowledgeGraph) (entityName : String) : Option String :=
  (g.relations.find?
    (fun r => r.«from» == entityName && r.relationType == "has_priority")).bind
    (fun r => (jsSplitChar ':' r.«to»).get? 1)

/-- `setEntityStatus` of the source: validates the value, removes every
existing `has_status` relation out of `entityName`, then appends the new
edge. -/
def setEntityStatus (g : KnowledgeGraph) (entityName statusValue : String) :
    Except String KnowledgeGraph :=
  if VALID_STATUS_VALUES.contains statusValue then
    .ok { g with relations := (g.relations.filter
      (fun r => ! (r.«from» == entityName && r.relationType == "has_status"))
      ++ [{ «from» := entityName, «to» := "status:" ++ statusValue,
            relationType := "has_status" }]) }
  else
    .error ("Invalid status value: " ++ statusValue)

/-- `setEntityPriority` of the source. -/
def setEntityPriority (g : KnowledgeGraph) (entityName priorityValue : String) :
    Except String KnowledgeGraph :=
  if VALID_PRIORITY_VALUES.contains priorityValue then
    .ok { g with relations := (g.relations.filter
      (fun r => ! (r.«from» == entityName && r.relationType == "has_priority"))
      ++ [{ «from» := entityName, «to» := "priority:" ++ priorityValue,
            relationType := "has_priority" }]) }
  else
    .error ("Invalid priority value: " ++ priorityValue)

/-! ### Search -/

/-- The per-term test of `searchNodes`: the term occurs in the lower-cased
entity name, entity type, or some single observation. -/
def termMatches (e : Entity) (term : String) : Bool :=
  jsIncludes (jsToLowerStr e.name) term ||
  jsIncludes (jsToLowerStr e.entityType) term ||
  e.observations.any (fun o => jsIncludes (jsToLowerStr o) term)

/-- The `matchesAllTerms` test of `searchNodes`. -/
def entityMatches (terms : List String) (e : Entity) : Bool :=
  terms.all (termMatches e)

/-- `searchNodes` of the source: lower-cases and whitespace-splits the
query, collects the names of the matching entities, and returns the
entities and relations filtered by that name set. -/
def searchNodes (g : KnowledgeGraph) (query : String) : KnowledgeGraph :=
  let terms := jsSplitWs (jsToLowerStr query)
  let matchingEntityNames :=
    (g.entities.filter (entityMatches terms)).map (·.name)
  { entities := g.entities.filter (fun e => matchingEntityNames.contains e.name),
    relations := g.relations.filter (fun r =>
      matchingEntityNames.contains r.«from» &&
      matchingEntityNames.contains r.«to») }

/-- `openNodes` of the source. -/
def openNodes (g : KnowledgeGraph) (names : List String) : KnowledgeGraph :=
  { entities := g.entities.filter (fun e => names.contains e.name),
    relations := g.relations.filter (fun r =>
      names.contains r.«from» && names.contains r.«to») }

/-! ### Chronological data -/

/-- Parses a maximal all-digit character list into a number. -/
def charsToNat? (l : List Char) : Option Nat :=
  if !l.isEmpty && l.all Char.isDigit then
    some (l.foldl (fun n c => n * 10 + (c.toNat - 48)) 0)
  else none

/-- Modelled from the spec: the source parses date strings with the
JavaScript `new Date(dateString)` generic parser, a library builtin whose
code is not part of the repository.  This embedding accepts ISO
`YYYY-MM-DD` strings from 1970 on and maps them to a chronologically
ordered key; `none` stands for an invalid date (`NaN` timestamp), and `0`
is the epoch-zero key of `new Date(0)`. -/
def jsParseDate (s : String) : Option Nat :=
  match jsSplitChar '-' s with
  | [y, m, d] =>
    match charsToNat? y.data, charsToNat? m.data, charsToNat? d.data with
    | some yn, some mn, some dn =>
      if 1970 ≤ yn && 1 ≤ mn && mn ≤ 12 && 1 ≤ dn && dn ≤ 31 then
        some (yn * 10000 + mn * 100 + dn)
      else none
    | _, _, _ => none
  | _ => none

/-- The date-observation test of `getChronologicalData`. -/
def isDateObservation (o : String) : Bool :=
  jsStartsWith o "Date:" || jsStartsWith o "Collected on:" ||
  jsStartsWith o "Created:"

/-- The date key `getChronologicalData` assigns to an entity: the first
observation carrying a date prefix is split at `":"`, its second segment
trimmed and parsed; an absent or unparsable date yields the epoch key 0. -/
def entityDateKey (e : Entity) : Nat :=
  match e.observations.find? isDateObservation with
  | none => 0
  | some obs =>
    match (jsSplitChar ':' obs).get? 1 with
    | none => 0
    | some seg =>
      match jsParseDate (jsTrim seg) with
      | some t => t
      | none => 0

/-- The default data-collection entity types of `getChronologicalData`. -/
def defaultChronoType (e : Entity) : Bool :=
  e.entityType == "interview" || e.entityType == "observation" ||
  e.entityType == "document"

/-- The collection loop of `getChronologicalData`: every `part_of` relation
into the project contributes the first entity of the requested type (or of
a default data type) with the relation's source name. -/
def collectDataEntities (g : KnowledgeGraph) (projectName : String)
    (dataType : Option String) : List Entity :=
  g.relations.filterMap (fun rel =>
    if rel.relationType == "part_of" && rel.«to» == projectName then
      match dataType with
      | some dt =>
        g.entities.find? (fun e => e.name == rel.«from» && e.entityType == dt)
      | none =>
        g.entities.find? (fun e => e.name == rel.«from» && defaultChronoType e)
    else none)

/-- The quotes attached to a timeline item via `contains` relations. -/
def quotesOf (g : KnowledgeGraph) (n : String) : List Entity :=
  g.relations.filterMap (fun rel =>
    if rel.relationType == "contains" && rel.«from» == n then
      g.entities.find? (fun e => e.name == rel.«to» && e.entityType == "quote")
    else none)

/-- One item of the timeline returned by `getChronologicalData`. -/
structure TimelineItem where
  date : Nat
  entity : Entity
  quotes : List Entity
  deriving DecidableEq, Repr

/-- The ascending-date comparison of the source's `sort((a, b) =>
a.date.getTime() - b.date.getTime())`. -/
def chronoLE (a b : Entity) : Prop := entityDateKey a ≤ entityDateKey b

instance : DecidableRel chronoLE := fun x y => Nat.decLe (entityDateKey x) (entityDateKey y)

instance : IsTotal Entity chronoLE := ⟨fun x y => Nat.le_total (entityDateKey x) (entityDateKey y)⟩

instance : IsTrans Entity chronoLE := ⟨fun _ _ _ => Nat.le_trans⟩

/-- `getChronologicalData` of the source.  JavaScript's `Array.prototype.sort`
is a stable sort of the comparator's order, embedded here as the stable
`List.insertionSort`. -/
def getChronologicalData (g : KnowledgeGraph) (projectName : String)
    (dataType : Option String) : Except String (Entity × List TimelineItem) :=
  match g.entities.find?
      (fun e => e.name == projectName && e.entityType == "project") with
  | none => .error ("Project not found: " ++ projectName)
  | some project =>
    let dataEntities := collectDataEntities g projectName dataType
    let sorted := List.insertionSort chronoLE dataEntities
    .ok (project, sorted.map (fun e =>
      { date := entityDateKey e, entity := e, quotes := quotesOf g e.name }))

/-! ### Code co-occurrence -/

/-- One entry of the co-occurrence report. -/
structure Cooccurrence where
  code : Entity
  count : Nat
  quotes : List Entity
  deriving DecidableEq, Repr

/-- The quotes tagged by a code via `codes` relations. -/
def codeQuotes (g : KnowledgeGraph) (codeName : String) : List Entity :=
  g.relations.filterMap (fun rel =>
    if rel.relationType == "codes" && rel.«from» == codeName then
      g.entities.find? (fun e => e.name == rel.«to» && e.entityType == "quote")
    else none)

/-- One `codeOccurrences` update of the source: a JavaScript `Map.set`
keeps insertion order, updating in place on an existing key and appending
a fresh entry otherwise. -/
def bumpOccurrence (m : List (String × Cooccurrence)) (c : Entity)
    (q : Entity) : List (String × Cooccurrence) :=
  if m.any (fun p => p.1 == c.name) then
    m.map (fun p =>
      if p.1 == c.name then
        (p.1, { p.2 with count := p.2.count + 1, quotes := p.2.quotes ++ [q] })
      else p)
  else m ++ [(c.name, { code := c, count := 1, quotes := [q] })]

/-- The inner relation loop of `getCodeCooccurrence` for one quote. -/
def cooccInner (g : KnowledgeGraph) (codeName : String) (q : Entity)
    (m : List (String × Cooccurrence)) : List (String × Cooccurrence) :=
  g.relations.foldl (fun m rel =>
    if rel.relationType == "codes" && rel.«from» != codeName &&
        rel.«to» == q.name then
      match g.entities.find?
          (fun e => e.name == rel.«from» && e.entityType == "code") with
      | some other => bumpOccurrence m other q
      | none => m
    else m) m

/-- The full `codeOccurrences` map of `getCodeCooccurrence`. -/
def cooccMap (g : KnowledgeGraph) (codeName : String) (quotes : List Entity) :
    List (String × Cooccurrence) :=
  quotes.foldl (fun m q => cooccInner g codeName q m) []

/-- The descending-count comparison of the source's
`sort((a, b) => b.count - a.count)`. -/
def cooccGE (a b : Cooccurrence) : Prop := b.count ≤ a.count

instance : DecidableRel cooccGE := fun x y => Nat.decLe y.count x.count

instance : IsTotal Cooccurrence cooccGE := ⟨fun x y => Nat.le_total y.count x.count⟩

instance : IsTrans Cooccurrence cooccGE := ⟨fun _ _ _ h1 h2 => Nat.le_trans h2 h1⟩

/-- `getCodeCooccurrence` of the source: resolves the root code, collects
its quotes, tallies the other codes per quote, and sorts the tally entries
by descending count (stable, as JavaScript's sort is). -/
def getCodeCooccurrence (g : KnowledgeGraph) (codeName : String) :
    Except String (Entity × Nat × List Cooccurrence) :=
  match g.entities.find?
      (fun e => e.name == codeName && e.entityType == "code") with
  | none => .error ("Code not found: " ++ codeName)
  | some code =>
    let quotes := codeQuotes g codeName
    let m := cooccMap g codeName quotes
    .ok (code, quotes.length, List.insertionSort cooccGE (m.map (·.2)))

/-- The co-occurrence count `getCodeCooccurrence codeName` reports for
`otherName`, reading an absent entry (or a failed call) as count 0. -/
def reportedCount (g : KnowledgeGraph) (codeName otherName : String) : Nat :=
  match getCodeCooccurrence g codeName with
  | .error _ => 0
  | .ok (_, _, list) =>
    match list.find? (fun occ => occ.code.name == otherName) with
    | some occ => occ.count
    | none => 0

/-! ### Persistence view of a mutating call -/

/-- The stored graph after a mutating call that returns a delta: on success
the graph passed to `saveGraph`, on a thrown error the previous stored
graph (the exception propagates before `saveGraph` runs). -/
def persistedAfter {α : Type} (g : KnowledgeGraph)
    (r : Except String (KnowledgeGraph × α)) : KnowledgeGraph :=
  match r with
  | .ok (g2, _) => g2
  | .error _ => g

/-- The stored graph after a `setEntityStatus` / `setEntityPriority` call. -/
def persistedAfterSet (g : KnowledgeGraph)
    (r : Except String KnowledgeGraph) : KnowledgeGraph :=
  match r with
  | .ok g2 => g2
  | .error _ => g

/-! ### Well-formedness and reachability -/

/-- Graph well-formedness: entity names are pairwise distinct and every
relation endpoint names an existing entity. -/
def WF (g : KnowledgeGraph) : Prop :=
  (entityNames g).Nodup ∧
  ∀ r ∈ g.relations, r.«from» ∈ entityNames g ∧ r.«to» ∈ entityNames g

instance (g : KnowledgeGraph) : Decidable (WF g) := by
  unfold WF; infer_instance

/-- One successful public mutating call, exactly as the code performs it
(no side conditions). -/
inductive StepOrig : KnowledgeGraph → KnowledgeGraph → Prop where
  | createEntities (g : KnowledgeGraph) (es : List Entity) (g2 : KnowledgeGraph)
      (delta : List Entity) (h : createEntities g es = .ok (g2, delta)) :
      StepOrig g g2
  | createRelations (g : KnowledgeGraph) (rs : List Relation) (g2 : KnowledgeGraph)
      (delta : List Relation) (h : createRelations g rs = .ok (g2, delta)) :
      StepOrig g g2
  | addObservations (g : KnowledgeGraph) (items : List ObservationAdd)
      (g2 : KnowledgeGraph) (res : List ObservationResult)
      (h : addObservations g items = .ok (g2, res)) : StepOrig g g2
  | deleteEntities (g : KnowledgeGraph) (names : List String) :
      StepOrig g (deleteEntities g names)
  | deleteObservations (g : KnowledgeGraph) (ds : List ObservationDeletion) :
      StepOrig g (deleteObservations g ds)
  | deleteRelations (g : KnowledgeGraph) (rs : List Relation) :
      StepOrig g (deleteRelations g rs)
  | initializeStatusAndPriority (g : KnowledgeGraph) :
      StepOrig g (initializeStatusAndPriority g)
  | setEntityStatus (g : KnowledgeGraph) (n v : String) (g2 : KnowledgeGraph)
      (h : setEntityStatus g n v = .ok g2) : StepOrig g g2
  | setEntityPriority (g : KnowledgeGraph) (n v : String) (g2 : KnowledgeGraph)
      (h : setEntityPriority g n v = .ok g2) : StepOrig g g2

/-- Reserved-name discipline: any entity whose name is a reserved
`status:<value>` / `priority:<value>` name carries the corresponding
entity type. -/
def reservedNamesTyped (g : KnowledgeGraph) : Prop :=
  (∀ v ∈ VALID_STATUS_VALUES, ∀ e ∈ g.entities,
      e.name = "status:" ++ v → e.entityType = "status") ∧
  (∀ v ∈ VALID_PRIORITY_VALUES, ∀ e ∈ g.entities,
      e.name = "priority:" ++ v → e.entityType = "priority")

/-- The reserved-name discipline of `reservedNamesTyped`, phrased over a
bare entity list (as transformed by the `initializeStatusAndPriority`
loops). -/
def resTypedEs (es : List Entity) : Prop :=
  (∀ v ∈ VALID_STATUS_VALUES, ∀ e ∈ es,
      e.name = "status:" ++ v → e.entityType = "status") ∧
  (∀ v ∈ VALID_PRIORITY_VALUES, ∀ e ∈ es,
      e.name = "priority:" ++ v → e.entityType = "priority")

/-- One successful public mutating call under the amended side conditions:
`createEntities` batches carry pairwise-distinct names, status/priority
setters are applied to an existing entity and an existing value entity, and
`initializeStatusAndPriority` runs only on graphs honouring the
reserved-name discipline. -/
inductive Step : KnowledgeGraph → KnowledgeGraph → Prop where
  | createEntities (g : KnowledgeGraph) (es : List Entity) (g2 : KnowledgeGraph)
      (delta : List Entity) (hnames : (es.map (·.name)).Nodup)
      (h : createEntities g es = .ok (g2, delta)) : Step g g2
  | createRelations (g : KnowledgeGraph) (rs : List Relation) (g2 : KnowledgeGraph)
      (delta : List Relation) (h : createRelations g rs = .ok (g2, delta)) :
      Step g g2
  | addObservations (g : KnowledgeGraph) (items : List ObservationAdd)
      (g2 : KnowledgeGraph) (res : List ObservationResult)
      (h : addObservations g items = .ok (g2, res)) : Step g g2
  | deleteEntities (g : KnowledgeGraph) (names : List String) :
      Step g (deleteEntities g names)
  | deleteObservations (g : KnowledgeGraph) (ds : List ObservationDeletion) :
      Step g (deleteObservations g ds)
  | deleteRelations (g : KnowledgeGraph) (rs : List Relation) :
      Step g (deleteRelations g rs)
  | initializeStatusAndPriority (g : KnowledgeGraph)
      (hres : reservedNamesTyped g) :
      Step g (initializeStatusAndPriority g)
  | setEntityStatus (g : KnowledgeGraph) (n v : String) (g2 : KnowledgeGraph)
      (hn : n ∈ entityNames g) (hv : ("status:" ++ v) ∈ entityNames g)
      (h : setEntityStatus g n v = .ok g2) : Step g g2
  | setEntityPriority (g : KnowledgeGraph) (n v : String) (g2 : KnowledgeGraph)
      (hn : n ∈ entityNames g) (hv : ("priority:" ++ v) ∈ entityNames g)
      (h : setEntityPriority g n v = .ok g2) : Step g g2

deriving instance DecidableEq for Except

/-! ### Concrete graphs used by witnesses and counterexamples -/

/-- The search scenario of the spec: `Alpha` mentions beta, `Beta` does not
mention alpha. -/
def searchExampleKG : KnowledgeGraph :=
  { entities := [Entity.mk "Alpha" "code" ["mentions beta"],
                 Entity.mk "Beta" "code" []],
    relations := [] }

/-- A graph with two entities sharing the name `A`, one matching the query
`code` through its entity type and one not. -/
def dupNameKG : KnowledgeGraph :=
  { entities := [Entity.mk "A" "code" [], Entity.mk "A" "memo" []],
    relations := [] }

/-- The chronology scenario of the spec: three interviews in one project,
dated 2024-01-05, 2024-01-01 and undated. -/
def chronoExampleKG : KnowledgeGraph :=
  { entities := [Entity.mk "P" "project" [],
                 Entity.mk "I1" "interview" ["Date: 2024-01-05"],
                 Entity.mk "I2" "interview" ["Date: 2024-01-01"],
                 Entity.mk "I3" "interview" ["about coffee"]],
    relations := [Relation.mk "I1" "P" "part_of",
                  Relation.mk "I2" "P" "part_of",
                  Relation.mk "I3" "P" "part_of"] }

/-- The co-occurrence scenario of the spec: codes `C1x` and `C2x` both tag
quote `Q1`. -/
def cooccExampleKG : KnowledgeGraph :=
  { entities := [Entity.mk "C1x" "code" [],
                 Entity.mk "C2x" "code" [],
                 Entity.mk "Q1" "quote" []],
    relations := [Relation.mk "C1x" "Q1" "codes",
                  Relation.mk "C2x" "Q1" "codes"] }

/-- A small well-formed graph: entities `A`, `B` and one relation between
them, plus an observation on `B`. -/
def deleteExampleKG : KnowledgeGraph :=
  { entities := [Entity.mk "A" "code" [],
                 Entity.mk "B" "code" ["keep me"]],
    relations := [Relation.mk "A" "B" "related_to"] }

/-! ### Derived notions used in the statements and proofs -/

/-- The outgoing `has_status` edges of an entity. -/
def statusEdgesFrom (g : KnowledgeGraph) (n : String) : List Relation :=
  g.relations.filter (fun r => r.«from» == n && r.relationType == "has_status")

/-- The outgoing `has_priority` edges of an entity. -/
def priorityEdgesFrom (g : KnowledgeGraph) (n : String) : List Relation :=
  g.relations.filter (fun r => r.«from» == n && r.relationType == "has_priority")

/-- The number of quotes of code `c` (quote-typed `codes` targets of `c`)
that code `cp` also tags with a `codes` relation. -/
def numCommonQuotes (g : KnowledgeGraph) (c cp : String) : Nat :=
  ((codeQuotes g c).filter (fun q => g.relations.any
    (fun rel => rel.relationType == "codes" && rel.«from» == cp &&
      rel.«to» == q.name))).length

/-- The count stored in an occurrence map under a key, 0 when absent. -/
def lookupCount (m : List (String × Cooccurrence)) (n : String) : Nat :=
  match m.find? (fun p => p.1 == n) with
  | some p => p.2.count
  | none => 0

/-- Entity extension: same name and type, observations extended by a
suffix.  `addObservations` transforms the entity list pointwise along this
relation. -/
def EntityExt (e e2 : Entity) : Prop :=
  e2.name = e.name ∧ e2.entityType = e.entityType ∧
  ∃ t, e2.observations = e.observations ++ t

/-- Invariant of the `codeOccurrences` map of `getCodeCooccurrence`: keys
are pairwise distinct, each entry's code entity carries the key as its
name, no key is the root code, and each key names an existing code-typed
entity. -/
def CMapInv (g : KnowledgeGraph) (c : String)
    (m : List (String × Cooccurrence)) : Prop :=
  (m.map (fun p => p.1)).Nodup ∧
  ∀ pr ∈ m, pr.2.code.name = pr.1 ∧ pr.1 ≠ c ∧
    (g.entities.find?
      (fun e => e.name == pr.1 && e.entityType == "code")).isSome = true

/-! ## Helper lemmas -/

theorem find?_filter_not_append {α : Type} (p q : α → Bool)
    (hq : ∀ x, q x = (! p x)) (l : List α) (a : α) (h : p a = true) :
    ((l.filter q) ++ [a]).find? p = some a := by
  induction l with
  | nil => simp [List.find?, h]
  | cons x xs ih =>
    by_cases hx : p x = true
    · simp [List.filter_cons, hq x, hx, ih]
    · simp [List.filter_cons, hq x, hx, List.find?, ih]

theorem filter_not_self {α : Type} (p q : α → Bool)
    (hq : ∀ x, q x = (! p x)) (l : List α) : (l.filter q).filter p = [] := by
  induction l with
  | nil => rfl
  | cons x xs ih =>
    by_cases hx : p x = true
    · simp [List.filter_cons, hq x, hx, ih]
    · simp [List.filter_cons, hq x, hx, ih]

theorem filter_filter_not_of_imp {α : Type} (p q qn : α → Bool)
    (hqn : ∀ x, qn x = (! p x)) (h : ∀ a, q a = true → p a = false)
    (l : List α) : (l.filter qn).filter q = l.filter q := by
  induction l with
  | nil => rfl
  | cons x xs ih =>
    by_cases hq : q x = true
    · have hp := h x hq
      simp [List.filter_cons, hqn x, hp, hq, ih]
    · by_cases hp : p x = true
      · simp [List.filter_cons, hqn x, hp, hq, ih]
      · simp [List.filter_cons, hqn x, hp, hq, ih]

theorem splitCharAux_no_sep (sep : Char) (l : List Char) (h : sep ∉ l)
    (acc : List Char) : splitCharAux sep l acc = [String.mk (acc.reverse ++ l)] := by
  induction l generalizing acc with
  | nil => simp [splitCharAux]
  | cons c cs ih =>
    have hc : (c == sep) = false := by
      cases hb : c == sep
      · rfl
      · exact absurd (by rw [← eq_of_beq hb]; exact List.mem_cons_self c cs) h
    have hcs : sep ∉ cs := fun hx => h (List.mem_cons_of_mem _ hx)
    simp [splitCharAux, hc, ih hcs]

theorem splitCharAux_status_peel (l : List Char) :
    splitCharAux ':' ("status:".data ++ l) [] = "status" :: splitCharAux ':' l [] :=
  rfl

theorem splitCharAux_priority_peel (l : List Char) :
    splitCharAux ':' ("priority:".data ++ l) [] = "priority" :: splitCharAux ':' l [] :=
  rfl

theorem jsSplitChar_colon_status (v : String) (hnc : ':' ∉ v.data) :
    jsSplitChar ':' ("status:" ++ v) = ["status", v] := by
  show splitCharAux ':' ("status:" ++ v).data [] = ["status", v]
  rw [String.data_append, splitCharAux_status_peel,
    splitCharAux_no_sep ':' v.data hnc []]
  simp

theorem jsSplitChar_colon_priority (v : String) (hnc : ':' ∉ v.data) :
    jsSplitChar ':' ("priority:" ++ v) = ["priority", v] := by
  show splitCharAux ':' ("priority:" ++ v).data [] = ["priority", v]
  rw [String.data_append, splitCharAux_priority_peel,
    splitCharAux_no_sep ':' v.data hnc []]
  simp

theorem status_values_no_colon : ∀ w ∈ VALID_STATUS_VALUES, ':' ∉ w.data := by
  decide

theorem priority_values_no_colon : ∀ w ∈ VALID_PRIORITY_VALUES, ':' ∉ w.data := by
  decide

/-! ## Claim theorems -/

/-- C9: `loadGraph` returns the empty graph when the store file does not
exist, but it equally absorbs every other read failure (corrupt JSON,
other I/O errors) into the empty graph instead of surfacing a storage
error: the catch-all `catch` arm contradicts its own comment, which
documents only the file-absent recovery. -/
theorem claim9_loadGraph_absorbs_every_failure :
    loadGraph (Except.error ReadError.enoent) = emptyKG ∧
    loadGraph (Except.error ReadError.parseFailure) = emptyKG ∧
    loadGraph (Except.error ReadError.ioFailure) = emptyKG ∧
    ∀ g : KnowledgeGraph, loadGraph (Except.ok g) = g :=
  ⟨rfl, rfl, rfl, fun _ => rfl⟩

/-- C3: `deleteEntities` keeps exactly the entities whose name is not
listed and exactly the relations with neither endpoint listed (cascade in
both directions); survivors are the original records in their original
order (observations included); and on a graph whose relations reference
existing entities, a list of unknown names is a complete no-op (and the
operation is total, so it never errors). -/
theorem claim3_deleteEntities_cascade (g : KnowledgeGraph) (names : List String) :
    (∀ e, e ∈ (deleteEntities g names).entities ↔
      e ∈ g.entities ∧ e.name ∉ names) ∧
    (∀ r, r ∈ (deleteEntities g names).relations ↔
      r ∈ g.relations ∧ r.«from» ∉ names ∧ r.«to» ∉ names) ∧
    List.Sublist (deleteEntities g names).entities g.entities ∧
    List.Sublist (deleteEntities g names).relations g.relations ∧
    ((∀ r ∈ g.relations, r.«from» ∈ entityNames g ∧ r.«to» ∈ entityNames g) →
      (∀ n ∈ names, n ∉ entityNames g) → deleteEntities g names = g) := by
  refine ⟨?_, ?_, List.filter_sublist _, List.filter_sublist _, ?_⟩
  · intro e
    simp [deleteEntities, List.mem_filter]
  · intro r
    simp [deleteEntities, List.mem_filter, and_assoc]
  · intro hclosed hnames
    have he : g.entities.filter (fun e => ! names.contains e.name) = g.entities := by
      refine List.filter_eq_self.mpr (fun e hee => ?_)
      have hnm : e.name ∉ names :=
        fun hmem => hnames e.name hmem (List.mem_map_of_mem _ hee)
      simp [hnm]
    have hr : g.relations.filter
        (fun r => ! names.contains r.«from» && ! names.contains r.«to») =
        g.relations := by
      refine List.filter_eq_self.mpr (fun r hrr => ?_)
      have h1 : r.«from» ∉ names := fun hmem => hnames _ hmem (hclosed r hrr).1
      have h2 : r.«to» ∉ names := fun hmem => hnames _ hmem (hclosed r hrr).2
      simp [h1, h2]
    show KnowledgeGraph.mk _ _ = g
    rw [he, hr]

/-- Witness for C3 at a concrete graph: deleting an unknown name is a
no-op. -/
theorem claim3_witness :
    deleteEntities deleteExampleKG ["Ghost"] = deleteExampleKG :=
  (claim3_deleteEntities_cascade deleteExampleKG ["Ghost"]).2.2.2.2
    (by decide) (by decide)

/-- C5: a status value outside the enumeration makes `setEntityStatus`
error (so nothing is saved and the stored graph is unchanged); a valid
value replaces the outgoing `has_status` edges of the entity by the single
edge to `status:<value>`, leaves every other entity's `has_status` edges
and all entities untouched — hence after any sequence of such calls an
entity has at most one outgoing `has_status` edge — and `getEntityStatus`
then reads back exactly the value; analogously for `setEntityPriority` /
`getEntityPriority` with `has_priority`. -/
theorem claim5_set_get_status_priority (g : KnowledgeGraph) (n v : String) :
    ((∃ msg, setEntityStatus g n v = .error msg) ↔ v ∉ VALID_STATUS_VALUES) ∧
    (∀ g2, setEntityStatus g n v = .ok g2 →
      statusEdgesFrom g2 n = [Relation.mk n ("status:" ++ v) "has_status"] ∧
      (∀ m, m ≠ n → statusEdgesFrom g2 m = statusEdgesFrom g m) ∧
      g2.entities = g.entities ∧
      getEntityStatus g2 n = some v) ∧
    ((∃ msg, setEntityPriority g n v = .error msg) ↔ v ∉ VALID_PRIORITY_VALUES) ∧
    (∀ g2, setEntityPriority g n v = .ok g2 →
      priorityEdgesFrom g2 n = [Relation.mk n ("priority:" ++ v) "has_priority"] ∧
      (∀ m, m ≠ n → priorityEdgesFrom g2 m = priorityEdgesFrom g m) ∧
      g2.entities = g.entities ∧
      getEntityPriority g2 n = some v) := by
  refine ⟨?_, ?_, ?_, ?_⟩
  · by_cases hmem : v ∈ VALID_STATUS_VALUES
    · have hv : VALID_STATUS_VALUES.contains v = true := by simpa using hmem
      rw [setEntityStatus, if_pos hv]
      simp [hmem]
    · have hv : VALID_STATUS_VALUES.contains v = false := by simpa using hmem
      rw [setEntityStatus, if_neg (by simp [hmem])]
      simp [hmem]
  · intro g2 h
    by_cases hmem : v ∈ VALID_STATUS_VALUES
    · have hv : VALID_STATUS_VALUES.contains v = true := by simpa using hmem
      rw [setEntityStatus, if_pos hv] at h
      injection h with h
      subst h
      refine ⟨?_, ?_, rfl, ?_⟩
      · show List.filter _ (List.filter _ g.relations ++ [_]) = _
        rw [List.filter_append, filter_not_self
          (fun r : Relation => r.«from» == n && r.relationType == "has_status")
          (fun r : Relation => ! (r.«from» == n && r.relationType == "has_status"))
          (fun _ => rfl)]
        simp
      · intro m hm
        have himp : ∀ r : Relation,
            (r.«from» == m && r.relationType == "has_status") = true →
            (r.«from» == n && r.relationType == "has_status") = false := by
          intro r hr
          have h1 : r.«from» = m := eq_of_beq ((Bool.and_eq_true _ _).mp hr).1
          have h2 : (r.«from» == n) = false := by
            rw [h1]
            exact beq_eq_false_iff_ne.mpr hm
          simp [h2]
        show List.filter _ (List.filter _ g.relations ++ [_]) = List.filter _ g.relations
        rw [List.filter_append, filter_filter_not_of_imp
          (fun r : Relation => r.«from» == n && r.relationType == "has_status")
          (fun r : Relation => r.«from» == m && r.relationType == "has_status")
          (fun r : Relation => ! (r.«from» == n && r.relationType == "has_status"))
          (fun _ => rfl) himp]
        have hedge : (n == m) = false := beq_eq_false_iff_ne.mpr (Ne.symm hm)
        simp [List.filter_cons, hedge]
      · have hfind : List.find?
            (fun r => r.«from» == n && r.relationType == "has_status")
            (List.filter
              (fun r => ! (r.«from» == n && r.relationType == "has_status"))
              g.relations ++ [Relation.mk n ("status:" ++ v) "has_status"]) =
            some (Relation.mk n ("status:" ++ v) "has_status") :=
          find?_filter_not_append _ _ (fun _ => rfl) _ _ (by simp)
        show (List.find? _ (List.filter _ g.relations ++ [_])).bind _ = some v
        rw [hfind]
        show (jsSplitChar ':' ("status:" ++ v)).get? 1 = some v
        rw [jsSplitChar_colon_status v (status_values_no_colon v hmem)]
        rfl
    · have hv : VALID_STATUS_VALUES.contains v = false := by simpa using hmem
      rw [setEntityStatus, if_neg (by simp [hmem])] at h
      exact absurd h (by simp)
  · by_cases hmem : v ∈ VALID_PRIORITY_VALUES
    · have hv : VALID_PRIORITY_VALUES.contains v = true := by simpa using hmem
      rw [setEntityPriority, if_pos hv]
      simp [hmem]
    · have hv : VALID_PRIORITY_VALUES.contains v = false := by simpa using hmem
      rw [setEntityPriority, if_neg (by simp [hmem])]
      simp [hmem]
  · intro g2 h
    by_cases hmem : v ∈ VALID_PRIORITY_VALUES
    · have hv : VALID_PRIORITY_VALUES.contains v = true := by simpa using hmem
      rw [setEntityPriority, if_pos hv] at h
      injection h with h
      subst h
      refine ⟨?_, ?_, rfl, ?_⟩
      · show List.filter _ (List.filter _ g.relations ++ [_]) = _
        rw [List.filter_append, filter_not_self
          (fun r : Relation => r.«from» == n && r.relationType == "has_priority")
          (fun r : Relation => ! (r.«from» == n && r.relationType == "has_priority"))
          (fun _ => rfl)]
        simp
      · intro m hm
        have himp : ∀ r : Relation,
            (r.«from» == m && r.relationType == "has_priority") = true →
            (r.«from» == n && r.relationType == "has_priority") = false := by
          intro r hr
          have h1 : r.«from» = m := eq_of_beq ((Bool.and_eq_true _ _).mp hr).1
          have h2 : (r.«from» == n) = false := by
            rw [h1]
            exact beq_eq_false_iff_ne.mpr hm
          simp [h2]
        show List.filter _ (List.filter _ g.relations ++ [_]) = List.filter _ g.relations
        rw [List.filter_append, filter_filter_not_of_imp
          (fun r : Relation => r.«from» == n && r.relationType == "has_priority")
          (fun r : Relation => r.«from» == m && r.relationType == "has_priority")
          (fun r : Relation => ! (r.«from» == n && r.relationType == "has_priority"))
          (fun _ => rfl) himp]
        have hedge : (n == m) = false := beq_eq_false_iff_ne.mpr (Ne.symm hm)
        simp [List.filter_cons, hedge]
      · have hfind : List.find?
            (fun r => r.«from» == n && r.relationType == "has_priority")
            (List.filter
              (fun r => ! (r.«from» == n && r.relationType == "has_priority"))
              g.relations ++ [Relation.mk n ("priority:" ++ v) "has_priority"]) =
            some (Relation.mk n ("priority:" ++ v) "has_priority") :=
          find?_filter_not_append _ _ (fun _ => rfl) _ _ (by simp)
        show (List.find? _ (List.filter _ g.relations ++ [_])).bind _ = some v
        rw [hfind]
        show (jsSplitChar ':' ("priority:" ++ v)).get? 1 = some v
        rw [jsSplitChar_colon_priority v (priority_values_no_colon v hmem)]
        rfl
    · have hv : VALID_PRIORITY_VALUES.contains v = false := by simpa using hmem
      rw [setEntityPriority, if_neg (by simp [hmem])] at h
      exact absurd h (by simp)

/-- Witness for C5 at concrete inputs: setting `final` on `X` leaves one
`has_status` edge read back as `final`, and setting `high` leaves one
`has_priority` edge read back as `high`. -/
theorem claim5_witness :
    statusEdgesFrom
      (KnowledgeGraph.mk [] [Relation.mk "X" "status:final" "has_status"]) "X" =
      [Relation.mk "X" "status:final" "has_status"] ∧
    getEntityStatus
      (KnowledgeGraph.mk [] [Relation.mk "X" "status:final" "has_status"]) "X" =
      some "final" ∧
    priorityEdgesFrom
      (KnowledgeGraph.mk [] [Relation.mk "X" "priority:high" "has_priority"]) "X" =
      [Relation.mk "X" "priority:high" "has_priority"] ∧
    getEntityPriority
      (KnowledgeGraph.mk [] [Relation.mk "X" "priority:high" "has_priority"]) "X" =
      some "high" := by
  have hs := (claim5_set_get_status_priority emptyKG "X" "final").2.1
    (KnowledgeGraph.mk [] [Relation.mk "X" "status:final" "has_status"]) (by decide)
  have hp := (claim5_set_get_status_priority emptyKG "X" "high").2.2.2
    (KnowledgeGraph.mk [] [Relation.mk "X" "priority:high" "has_priority"]) (by decide)
  exact ⟨hs.1, hs.2.2.2, hp.1, hp.2.2.2⟩

/-- C6 counterexample: with two entities both named `A` (one of type
`code`, one of type `memo`), `searchNodes "code"` returns the `memo`
entity as well, although no query term occurs in its name, type or
observations — matching is by name set, so the claim's "exactly the
entities for which every token occurs" fails on graphs with duplicate
names. -/
theorem claim6_counterexample :
    (Entity.mk "A" "memo" []) ∈ (searchNodes dupNameKG "code").entities ∧
    entityMatches (jsSplitWs (jsToLowerStr "code"))
      (Entity.mk "A" "memo" []) = false := by
  decide

/-- C6 (amended): on every graph whose entity names are pairwise distinct,
`searchNodes` lower-cases the query, splits it on whitespace, and returns
exactly the entities all of whose tokens occur in the lower-cased name,
type or a single observation (in insertion order), together with exactly
the relations both of whose endpoints name a matching entity. -/
theorem claim6_search_induced_subgraph (g : KnowledgeGraph) (q : String)
    (hnodup : (entityNames g).Nodup) :
    (searchNodes g q).entities =
      g.entities.filter (entityMatches (jsSplitWs (jsToLowerStr q))) ∧
    (∀ r, r ∈ (searchNodes g q).relations ↔
      r ∈ g.relations ∧
      (∃ e ∈ g.entities, e.name = r.«from» ∧
        entityMatches (jsSplitWs (jsToLowerStr q)) e = true) ∧
      (∃ e ∈ g.entities, e.name = r.«to» ∧
        entityMatches (jsSplitWs (jsToLowerStr q)) e = true)) := by
  constructor
  · show g.entities.filter
        (fun e => ((g.entities.filter
          (entityMatches (jsSplitWs (jsToLowerStr q)))).map
            (fun e => e.name)).contains e.name) =
      g.entities.filter (entityMatches (jsSplitWs (jsToLowerStr q)))
    refine List.filter_congr (fun e he => ?_)
    by_cases hm : entityMatches (jsSplitWs (jsToLowerStr q)) e = true
    · rw [hm]
      simp only [List.contains_iff_exists_mem_beq, List.mem_map]
      exact ⟨e.name, ⟨e, List.mem_filter.mpr ⟨he, hm⟩, rfl⟩, by simp⟩
    · have hm2 : entityMatches (jsSplitWs (jsToLowerStr q)) e = false := by
        simpa using hm
      rw [hm2, Bool.eq_false_iff]
      intro hcon
      rw [List.contains_iff_exists_mem_beq] at hcon
      obtain ⟨x, hx, hbeq⟩ := hcon
      obtain ⟨e2, he2, rfl⟩ := List.mem_map.mp hx
      have hfil := List.mem_filter.mp he2
      have hee : e2 = e :=
        List.inj_on_of_nodup_map hnodup hfil.1 he (eq_of_beq hbeq).symm
      rw [hee] at hfil
      rw [hfil.2] at hm2
      exact absurd hm2 (by decide)
  · intro r
    show r ∈ g.relations.filter _ ↔ _
    rw [List.mem_filter]
    constructor
    · rintro ⟨hr, hab⟩
      rw [Bool.and_eq_true] at hab
      obtain ⟨ha, hb⟩ := hab
      refine ⟨hr, ?_, ?_⟩
      · rw [List.contains_iff_exists_mem_beq] at ha
        obtain ⟨x, hx, hbeq⟩ := ha
        obtain ⟨e, he, rfl⟩ := List.mem_map.mp hx
        have hef := List.mem_filter.mp he
        exact ⟨e, hef.1, (eq_of_beq hbeq).symm, hef.2⟩
      · rw [List.contains_iff_exists_mem_beq] at hb
        obtain ⟨x, hx, hbeq⟩ := hb
        obtain ⟨e, he, rfl⟩ := List.mem_map.mp hx
        have hef := List.mem_filter.mp he
        exact ⟨e, hef.1, (eq_of_beq hbeq).symm, hef.2⟩
    · rintro ⟨hr, ⟨e1, he1, hn1, hm1⟩, ⟨e2, he2, hn2, hm2⟩⟩
      refine ⟨hr, ?_⟩
      rw [Bool.and_eq_true]
      constructor
      · rw [List.contains_iff_exists_mem_beq]
        exact ⟨e1.name, List.mem_map_of_mem _
          (List.mem_filter.mpr ⟨he1, hm1⟩), by simp [hn1]⟩
      · rw [List.contains_iff_exists_mem_beq]
        exact ⟨e2.name, List.mem_map_of_mem _
          (List.mem_filter.mpr ⟨he2, hm2⟩), by simp [hn2]⟩

/-- Witness for C6 (amended) on the spec's AND-semantics example: only
`Alpha` satisfies both terms of the query `alpha beta`. -/
theorem claim6_witness :
    (searchNodes searchExampleKG "alpha beta").entities =
      [Entity.mk "Alpha" "code" ["mentions beta"]] ∧
    ((searchNodes searchExampleKG "alpha beta").relations = []) := by
  have h := claim6_search_induced_subgraph searchExampleKG "alpha beta"
    (by decide)
  refine ⟨?_, ?_⟩
  · rw [h.1]
    decide
  · decide

/-- C7: `getChronologicalData` errors exactly when the project entity is
missing; on success the timeline is the `part_of` data entities of the
requested type (default: interview, observation, document), each dated by
its first `Date:` / `Collected on:` / `Created:` observation (epoch zero
when absent or unparsable), sorted ascending by that date, with the
attached `contains` quotes; on the spec's example the order is the undated
interview, then 2024-01-01, then 2024-01-05. -/
theorem claim7_chronological_order (g : KnowledgeGraph) (proj : String)
    (dt : Option String) :
    ((∃ msg, getChronologicalData g proj dt = .error msg) ↔
      ¬ ∃ e ∈ g.entities, e.name = proj ∧ e.entityType = "project") ∧
    (∀ project timeline, getChronologicalData g proj dt = .ok (project, timeline) →
      List.Pairwise (fun a b => a.date ≤ b.date) timeline ∧
      List.Perm (timeline.map (fun t => t.entity)) (collectDataEntities g proj dt) ∧
      ∀ t ∈ timeline, t.date = entityDateKey t.entity ∧
        t.quotes = quotesOf g t.entity.name) ∧
    (getChronologicalData chronoExampleKG "P" none).map
      (fun r => r.2.map (fun t => t.entity.name)) = .ok ["I3", "I2", "I1"] := by
  refine ⟨?_, ?_, by decide⟩
  · constructor
    · rintro ⟨msg, hmsg⟩ ⟨e, he, hn, ht⟩
      cases hfind : g.entities.find?
          (fun e => e.name == proj && e.entityType == "project") with
      | some p => simp [getChronologicalData, hfind] at hmsg
      | none =>
        rw [List.find?_eq_none] at hfind
        exact absurd (show (e.name == proj && e.entityType == "project") = true by
          simp [hn, ht]) (by simpa using hfind e he)
    · intro hne
      have hfind : g.entities.find?
          (fun e => e.name == proj && e.entityType == "project") = none := by
        rw [List.find?_eq_none]
        intro x hx hpx
        rw [Bool.and_eq_true] at hpx
        exact hne ⟨x, hx, eq_of_beq hpx.1, eq_of_beq hpx.2⟩
      exact ⟨"Project not found: " ++ proj,
        by simp [getChronologicalData, hfind]⟩
  · intro project timeline h
    cases hfind : g.entities.find?
        (fun e => e.name == proj && e.entityType == "project") with
    | none => simp [getChronologicalData, hfind] at h
    | some p =>
      have heq : getChronologicalData g proj dt =
          .ok (p, (List.insertionSort chronoLE (collectDataEntities g proj dt)).map
            (fun e => TimelineItem.mk (entityDateKey e) e (quotesOf g e.name))) := by
        simp [getChronologicalData, hfind]
      rw [heq] at h
      injection h with h
      injection h with hp ht
      subst ht
      refine ⟨?_, ?_, ?_⟩
      · rw [List.pairwise_map]
        exact List.sorted_insertionSort chronoLE (collectDataEntities g proj dt)
      · rw [List.map_map]
        show List.Perm ((List.insertionSort chronoLE
          (collectDataEntities g proj dt)).map (fun e => e)) _
        rw [List.map_id']
        exact List.perm_insertionSort chronoLE (collectDataEntities g proj dt)
      · intro t htl
        obtain ⟨e, _, rfl⟩ := List.mem_map.mp htl
        exact ⟨rfl, rfl⟩

/-- Witness for C7: the concrete timeline of the spec's example, in the
order undated, 2024-01-01, 2024-01-05, is sorted ascending by date. -/
theorem claim7_witness :
    List.Pairwise (fun a b : TimelineItem => a.date ≤ b.date)
      [TimelineItem.mk 0 (Entity.mk "I3" "interview" ["about coffee"]) [],
       TimelineItem.mk 20240101 (Entity.mk "I2" "interview" ["Date: 2024-01-01"]) [],
       TimelineItem.mk 20240105 (Entity.mk "I1" "interview" ["Date: 2024-01-05"]) []] :=
  ((claim7_chronological_order chronoExampleKG "P" none).2.1
    (Entity.mk "P" "project" []) _ (by decide)).1

theorem validateRelations_error_iff (names : List String) (rs : List Relation) :
    (∃ msg, validateRelations names rs = .error msg) ↔
    ∃ r ∈ rs, r.«from» ∉ names ∨ r.«to» ∉ names ∨
      validateRelationType r.relationType = false := by
  induction rs with
  | nil => simp [validateRelations]
  | cons r rest ih =>
    by_cases m1 : r.«from» ∈ names
    · by_cases m2 : r.«to» ∈ names
      · by_cases h3 : validateRelationType r.relationType = true
        · simp [validateRelations, m1, m2, h3, ih]
        · have h3f : validateRelationType r.relationType = false := by
            simpa using h3
          simp [validateRelations, m1, m2, h3f]
      · simp [validateRelations, m1, m2]
    · simp [validateRelations, m1]

theorem appendObsFirst_names (n : String) (obs : List String)
    (es : List Entity) :
    (appendObsFirst n obs es).map (fun e => e.name) = es.map (fun e => e.name) := by
  induction es with
  | nil => rfl
  | cons e rest ih =>
    by_cases he : (e.name == n) = true
    · simp [appendObsFirst, he]
    · simp [appendObsFirst, he, ih]

theorem addObservationsAux_error_iff (items : List ObservationAdd) :
    ∀ g : KnowledgeGraph,
    ((∃ msg, addObservationsAux g items = .error msg) ↔
      ∃ it ∈ items, it.entityName ∉ entityNames g) := by
  induction items with
  | nil => intro g; simp [addObservationsAux]
  | cons it rest ih =>
    intro g
    cases hfind : g.entities.find? (fun e => e.name == it.entityName) with
    | none =>
      have hnone := List.find?_eq_none.mp hfind
      have hout : it.entityName ∉ entityNames g := by
        intro hmem
        obtain ⟨e, he, heq⟩ := List.mem_map.mp hmem
        exact absurd (show (e.name == it.entityName) = true by simp [heq])
          (hnone e he)
      constructor
      · intro _
        exact ⟨it, List.mem_cons_self it rest, hout⟩
      · intro _
        exact ⟨"Entity not found: " ++ it.entityName, by
          simp [addObservationsAux, hfind]⟩
    | some entity =>
      have hin : it.entityName ∈ entityNames g := by
        have hmem := List.mem_of_find?_eq_some hfind
        have hbeq := List.find?_some hfind
        have heq : entity.name = it.entityName := eq_of_beq hbeq
        exact heq ▸ List.mem_map_of_mem _ hmem
      have hnames :
          entityNames { g with entities := (appendObsFirst it.entityName
            (it.contents.filter (fun o => ! entity.observations.contains o))
            g.entities) } = entityNames g :=
        appendObsFirst_names _ _ _
      constructor
      · rintro ⟨msg, hmsg⟩
        simp only [addObservationsAux, hfind] at hmsg
        cases haux : addObservationsAux
            { g with entities := (appendObsFirst it.entityName
              (it.contents.filter (fun o => ! entity.observations.contains o))
              g.entities) } rest with
        | error msg2 =>
          obtain ⟨it2, hit2, hout2⟩ := (ih _).mp ⟨msg2, haux⟩
          rw [hnames] at hout2
          exact ⟨it2, List.mem_cons_of_mem _ hit2, hout2⟩
        | ok p =>
          rw [haux] at hmsg
          exact absurd hmsg (by simp)
      · rintro ⟨it2, hit2, hout2⟩
        rcases List.mem_cons.mp hit2 with heq2 | hit2r
        · rw [heq2] at hout2
          exact absurd hin hout2
        · obtain ⟨msg2, hmsg2⟩ :=
            (ih _).mpr ⟨it2, hit2r, by rw [hnames]; exact hout2⟩
          refine ⟨msg2, ?_⟩
          simp only [addObservationsAux, hfind]
          rw [hmsg2]

/-- C4: `createEntities` errors exactly when some entity type is invalid,
`createRelations` exactly when some endpoint is missing or some relation
type invalid, and `addObservations` exactly when some target entity is
missing (even mid-batch); in every error case the operation throws before
`saveGraph`, so the persisted graph is exactly the prior graph — the whole
batch is rejected with no partial apply. -/
theorem claim4_validation_atomicity (g : KnowledgeGraph) (es : List Entity)
    (rs : List Relation) (items : List ObservationAdd) :
    ((∃ msg, createEntities g es = .error msg) ↔
      ∃ e ∈ es, validateEntityType e.entityType = false) ∧
    (∀ msg, createEntities g es = .error msg →
      persistedAfter g (createEntities g es) = g) ∧
    ((∃ msg, createRelations g rs = .error msg) ↔
      ∃ r ∈ rs, r.«from» ∉ entityNames g ∨ r.«to» ∉ entityNames g ∨
        validateRelationType r.relationType = false) ∧
    (∀ msg, createRelations g rs = .error msg →
      persistedAfter g (createRelations g rs) = g) ∧
    ((∃ msg, addObservations g items = .error msg) ↔
      ∃ it ∈ items, it.entityName ∉ entityNames g) ∧
    (∀ msg, addObservations g items = .error msg →
      persistedAfter g (addObservations g items) = g) := by
  refine ⟨?_, ?_, ?_, ?_, ?_, ?_⟩
  · cases hfind : es.find? (fun e => ! validateEntityType e.entityType) with
    | some e0 =>
      have hmem := List.mem_of_find?_eq_some hfind
      have hval : validateEntityType e0.entityType = false := by
        have := List.find?_some hfind
        simpa using this
      simp only [createEntities, hfind]
      constructor
      · intro _
        exact ⟨e0, hmem, hval⟩
      · intro _
        exact ⟨"Invalid entity type: " ++ e0.entityType, rfl⟩
    | none =>
      have hnone := List.find?_eq_none.mp hfind
      simp only [createEntities, hfind]
      constructor
      · rintro ⟨msg, hmsg⟩
        exact absurd hmsg (by simp)
      · rintro ⟨e, he, hval⟩
        exact absurd (show (! validateEntityType e.entityType) = true by
          simp [hval]) (hnone e he)
  · intro msg h
    rw [h]
    rfl
  · have hsplit : (∃ msg, createRelations g rs = .error msg) ↔
        (∃ msg, validateRelations (entityNames g) rs = .error msg) := by
      cases hval : validateRelations (entityNames g) rs with
      | error msg => simp [createRelations, hval]
      | ok u => cases u; simp [createRelations, hval]
    rw [hsplit, validateRelations_error_iff]
  · intro msg h
    rw [h]
    rfl
  · exact addObservationsAux_error_iff items g
  · intro msg h
    rw [h]
    rfl

/-- Witness for C4 at concrete inputs: an invalid entity type, a missing
relation endpoint, and a mid-batch missing observation target each leave
the persisted graph exactly as it was. -/
theorem claim4_witness :
    persistedAfter emptyKG
      (createEntities emptyKG [Entity.mk "X" "bogus" []]) = emptyKG ∧
    persistedAfter emptyKG
      (createRelations emptyKG [Relation.mk "A" "B" "related_to"]) = emptyKG ∧
    persistedAfter deleteExampleKG
      (addObservations deleteExampleKG
        [ObservationAdd.mk "B" ["y"], ObservationAdd.mk "Ghost" ["z"]]) =
      deleteExampleKG := by
  have h1 := claim4_validation_atomicity emptyKG [Entity.mk "X" "bogus" []] [] []
  have h2 := claim4_validation_atomicity emptyKG []
    [Relation.mk "A" "B" "related_to"] []
  have h3 := claim4_validation_atomicity deleteExampleKG [] []
    [ObservationAdd.mk "B" ["y"], ObservationAdd.mk "Ghost" ["z"]]
  exact ⟨h1.2.1 "Invalid entity type: bogus" (by decide),
    h2.2.2.2.1 "Entity not found: A" (by decide),
    h3.2.2.2.2.2 "Entity not found: Ghost" (by decide)⟩

theorem entityExt_refl (e : Entity) : EntityExt e e :=
  ⟨rfl, rfl, [], by simp⟩

theorem forall₂_entityExt_refl (es : List Entity) :
    List.Forall₂ EntityExt es es := by
  induction es with
  | nil => exact List.Forall₂.nil
  | cons e rest ih => exact List.Forall₂.cons (entityExt_refl e) ih

theorem entityExt_trans {a b c : Entity} (h1 : EntityExt a b)
    (h2 : EntityExt b c) : EntityExt a c := by
  obtain ⟨n1, t1, s1, hs1⟩ := h1
  obtain ⟨n2, t2, s2, hs2⟩ := h2
  exact ⟨n2.trans n1, t2.trans t1, s1 ++ s2,
    by rw [hs2, hs1, List.append_assoc]⟩

theorem forall₂_entityExt_trans : ∀ {l1 l2 l3 : List Entity},
    List.Forall₂ EntityExt l1 l2 → List.Forall₂ EntityExt l2 l3 →
    List.Forall₂ EntityExt l1 l3 := by
  intro l1 l2 l3 h1
  induction h1 generalizing l3 with
  | nil =>
    intro h2
    cases h2
    exact List.Forall₂.nil
  | cons hab hl ih =>
    intro h2
    cases h2 with
    | cons hbc hl2 => exact List.Forall₂.cons (entityExt_trans hab hbc) (ih hl2)

theorem appendObsFirst_ext (n : String) (obs : List String)
    (es : List Entity) : List.Forall₂ EntityExt es (appendObsFirst n obs es) := by
  induction es with
  | nil => exact List.Forall₂.nil
  | cons e rest ih =>
    by_cases he : (e.name == n) = true
    · show List.Forall₂ EntityExt (e :: rest) (appendObsFirst n obs (e :: rest))
      rw [appendObsFirst, if_pos he]
      exact List.Forall₂.cons ⟨rfl, rfl, obs, rfl⟩ (forall₂_entityExt_refl rest)
    · show List.Forall₂ EntityExt (e :: rest) (appendObsFirst n obs (e :: rest))
      rw [appendObsFirst, if_neg he]
      exact List.Forall₂.cons (entityExt_refl e) ih

theorem forall₂_find?_name (n : String) : ∀ {l1 l2 : List Entity},
    List.Forall₂ EntityExt l1 l2 → ∀ e,
    l1.find? (fun x => x.name == n) = some e →
    ∃ e2, l2.find? (fun x => x.name == n) = some e2 ∧ EntityExt e e2 := by
  intro l1 l2 h
  induction h with
  | nil =>
    intro e he
    simp [List.find?] at he
  | @cons a b t1 t2 hab ht ih =>
    intro e he
    by_cases hn : (a.name == n) = true
    · rw [@List.find?_cons_of_pos Entity (fun x => x.name == n) a t1 hn] at he
      injection he with he
      subst he
      have hbn : (b.name == n) = true := by
        rw [show b.name = a.name from hab.1]
        exact hn
      exact ⟨b, @List.find?_cons_of_pos Entity (fun x => x.name == n) b t2 hbn,
        hab⟩
    · rw [@List.find?_cons_of_neg Entity (fun x => x.name == n) a t1 hn] at he
      have hbn : ¬ (b.name == n) = true := by
        rw [show b.name = a.name from hab.1]
        exact hn
      obtain ⟨e2, hfind2, hext⟩ := ih e he
      exact ⟨e2, by
        rw [@List.find?_cons_of_neg Entity (fun x => x.name == n) b t2 hbn]
        exact hfind2, hext⟩

theorem appendObsFirst_find? (n : String) (obs : List String) :
    ∀ (es : List Entity) (e : Entity),
    es.find? (fun x => x.name == n) = some e →
    (appendObsFirst n obs es).find? (fun x => x.name == n) =
      some { e with observations := e.observations ++ obs } := by
  intro es
  induction es with
  | nil =>
    intro e he
    simp [List.find?] at he
  | cons a rest ih =>
    intro e he
    by_cases hn : (a.name == n) = true
    · rw [@List.find?_cons_of_pos Entity (fun x => x.name == n) a rest hn] at he
      injection he with he
      subst he
      rw [appendObsFirst, if_pos hn]
      exact @List.find?_cons_of_pos Entity (fun x => x.name == n) _ rest hn
    · rw [@List.find?_cons_of_neg Entity (fun x => x.name == n) a rest hn] at he
      rw [appendObsFirst, if_neg hn]
      rw [@List.find?_cons_of_neg Entity (fun x => x.name == n) a
        (appendObsFirst n obs rest) hn]
      exact ih e he

theorem appendObsFirst_nil_obs (n : String) : ∀ es : List Entity,
    appendObsFirst n [] es = es := by
  intro es
  induction es with
  | nil => rfl
  | cons e rest ih =>
    by_cases he : (e.name == n) = true
    · rw [appendObsFirst, if_pos he]
      simp
    · rw [appendObsFirst, if_neg he, ih]

theorem addObservationsAux_noop (items : List ObservationAdd) :
    ∀ g : KnowledgeGraph,
    (∀ it ∈ items, ∃ e, g.entities.find? (fun x => x.name == it.entityName) =
      some e ∧ ∀ c ∈ it.contents, c ∈ e.observations) →
    addObservationsAux g items =
      .ok (g, items.map (fun it => ObservationResult.mk it.entityName [])) := by
  induction items with
  | nil => intro g _; rfl
  | cons it rest ih =>
    intro g hall
    obtain ⟨e, hfind, hsub⟩ := hall it (List.mem_cons_self it rest)
    have hfilter : it.contents.filter
        (fun o => ! e.observations.contains o) = [] := by
      refine List.filter_eq_nil_iff.mpr (fun c hc => ?_)
      simp [hsub c hc]
    have hrest : ∀ it2 ∈ rest, ∃ e2,
        g.entities.find? (fun x => x.name == it2.entityName) = some e2 ∧
        ∀ c ∈ it2.contents, c ∈ e2.observations :=
      fun it2 h2 => hall it2 (List.mem_cons_of_mem _ h2)
    simp only [addObservationsAux, hfind, hfilter, appendObsFirst_nil_obs]
    rw [show { g with entities := g.entities } = g from rfl, ih g hrest]
    rfl

theorem addObservationsAux_ok_spec (items : List ObservationAdd) :
    ∀ g g2 res, addObservationsAux g items = .ok (g2, res) →
      res.map (fun r => r.entityName) = items.map (fun it => it.entityName) ∧
      g2.relations = g.relations ∧
      List.Forall₂ EntityExt g.entities g2.entities ∧
      (∀ it ∈ items, ∃ e2,
        g2.entities.find? (fun x => x.name == it.entityName) = some e2 ∧
        ∀ c ∈ it.contents, c ∈ e2.observations) ∧
      (∀ p ∈ res.zip items, p.1.addedObservations.Sublist p.2.contents ∧
        ∀ o ∈ p.1.addedObservations, ∀ e,
          g.entities.find? (fun x => x.name == p.2.entityName) = some e →
          o ∉ e.observations) := by
  induction items with
  | nil =>
    intro g g2 res h
    simp only [addObservationsAux, Except.ok.injEq, Prod.mk.injEq] at h
    obtain ⟨hg, hres⟩ := h
    subst hg
    subst hres
    exact ⟨rfl, rfl, forall₂_entityExt_refl _, by simp, by simp⟩
  | cons it rest ih =>
    intro g g2 res h
    cases hfind : g.entities.find? (fun e => e.name == it.entityName) with
    | none => simp [addObservationsAux, hfind] at h
    | some entity =>
      simp only [addObservationsAux, hfind] at h
      cases haux : addObservationsAux
          { g with entities := (appendObsFirst it.entityName
            (it.contents.filter (fun o => ! entity.observations.contains o))
            g.entities) } rest with
      | error m =>
        rw [haux] at h
        exact absurd h (by simp)
      | ok p =>
        obtain ⟨gf, results⟩ := p
        rw [haux] at h
        simp only [Except.ok.injEq, Prod.mk.injEq] at h
        obtain ⟨hg, hres⟩ := h
        subst hg
        subst hres
        obtain ⟨ih1, ih2, ih3, ih4, ih5⟩ := ih _ _ _ haux
        have hextG : List.Forall₂ EntityExt g.entities
            (appendObsFirst it.entityName
              (it.contents.filter (fun o => ! entity.observations.contains o))
              g.entities) := appendObsFirst_ext _ _ _
        refine ⟨?_, ?_, ?_, ?_, ?_⟩
        · simp [ih1]
        · exact ih2
        · exact forall₂_entityExt_trans hextG ih3
        · intro it2 hit2
          rcases List.mem_cons.mp hit2 with rfl | hit2r
          · have hfind2 := appendObsFirst_find? it2.entityName
              (it2.contents.filter (fun o => ! entity.observations.contains o))
              g.entities entity hfind
            obtain ⟨e2, hfinde2, hexte2⟩ := forall₂_find?_name it2.entityName ih3
              _ hfind2
            refine ⟨e2, hfinde2, fun c hc => ?_⟩
            obtain ⟨nm, tp, tail, htail⟩ := hexte2
            have hcm : c ∈ entity.observations ++
                (it2.contents.filter
                  (fun o => ! entity.observations.contains o)) := by
              by_cases hcmem : c ∈ entity.observations
              · exact List.mem_append_left _ hcmem
              · refine List.mem_append_right _ (List.mem_filter.mpr ⟨hc, ?_⟩)
                simp [hcmem]
            rw [htail]
            exact List.mem_append_left _ hcm
          · exact ih4 it2 hit2r
        · intro pr hpr
          rw [show (ObservationResult.mk it.entityName
              (it.contents.filter (fun o => ! entity.observations.contains o))
              :: results).zip (it :: rest) =
              (ObservationResult.mk it.entityName
                (it.contents.filter (fun o => ! entity.observations.contains o)),
                it) :: results.zip rest from rfl] at hpr
          rcases List.mem_cons.mp hpr with heqp | hpr2
          · subst heqp
            constructor
            · exact List.filter_sublist _
            · intro o ho e3 hfind3
              rw [hfind] at hfind3
              injection hfind3 with hfind3
              subst hfind3
              have := List.mem_filter.mp ho
              simpa using this.2
          · obtain ⟨hsub, hnotin⟩ := ih5 pr hpr2
            refine ⟨hsub, fun o ho e3 hfind3 => ?_⟩
            obtain ⟨e4, hfind4, hext4⟩ := forall₂_find?_name pr.2.entityName
              hextG e3 hfind3
            have hnot4 := hnotin o ho e4 hfind4
            obtain ⟨nm4, tp4, tail4, htail4⟩ := hext4
            intro hmem3
            exact hnot4 (htail4 ▸ List.mem_append_left _ hmem3)

/-- C1: `createEntities`, `createRelations` and `addObservations` are
insert-if-absent with a delta result: entities whose name already exists,
relation triples already present, and observation strings already on the
target entity are silently skipped; each call returns exactly what it
inserted, in input order; and repeating the identical call leaves the
graph unchanged and returns an empty delta. -/
theorem claim1_insert_if_absent_delta (g : KnowledgeGraph) (es : List Entity)
    (rs : List Relation) (items : List ObservationAdd) :
    (∀ g1 ces, createEntities g es = .ok (g1, ces) →
      ces = es.filter (fun e => ! (entityNames g).contains e.name) ∧
      g1.entities = g.entities ++ ces ∧ g1.relations = g.relations ∧
      createEntities g1 es = .ok (g1, [])) ∧
    (∀ g2 crs, createRelations g rs = .ok (g2, crs) →
      crs = rs.filter (fun r => ! (g.relations.map relKey).contains (relKey r)) ∧
      g2.relations = g.relations ++ crs ∧ g2.entities = g.entities ∧
      createRelations g2 rs = .ok (g2, [])) ∧
    (∀ it entity,
      g.entities.find? (fun x => x.name == it.entityName) = some entity →
      addObservations g [it] = .ok
        ({ g with entities := (appendObsFirst it.entityName
            (it.contents.filter (fun o => ! entity.observations.contains o))
            g.entities) },
         [ObservationResult.mk it.entityName
           (it.contents.filter (fun o => ! entity.observations.contains o))])) ∧
    (∀ g3 res, addObservations g items = .ok (g3, res) →
      res.map (fun r => r.entityName) = items.map (fun it => it.entityName) ∧
      g3.relations = g.relations ∧
      (∀ p ∈ res.zip items, p.1.addedObservations.Sublist p.2.contents ∧
        ∀ o ∈ p.1.addedObservations, ∀ e,
          g.entities.find? (fun x => x.name == p.2.entityName) = some e →
          o ∉ e.observations) ∧
      addObservations g3 items =
        .ok (g3, items.map (fun it => ObservationResult.mk it.entityName []))) := by
  refine ⟨?_, ?_, ?_, ?_⟩
  · intro g1 ces h
    cases hfind : es.find? (fun e => ! validateEntityType e.entityType) with
    | some e0 => simp [createEntities, hfind] at h
    | none =>
      simp only [createEntities, hfind, Except.ok.injEq, Prod.mk.injEq] at h
      obtain ⟨hg, hces⟩ := h
      subst hces
      subst hg
      refine ⟨rfl, rfl, rfl, ?_⟩
      simp only [createEntities, hfind]
      have hfil : es.filter (fun e => ! (entityNames
          { g with entities := (g.entities ++ es.filter
            (fun e => ! (entityNames g).contains e.name)) }).contains
            e.name) = [] := by
        refine List.filter_eq_nil_iff.mpr (fun e he => ?_)
        have hmem : e.name ∈ entityNames
            { g with entities := (g.entities ++ es.filter
              (fun e => ! (entityNames g).contains e.name)) } := by
          show e.name ∈ (g.entities ++ _).map (fun x => x.name)
          rw [List.map_append]
          by_cases hc : e.name ∈ entityNames g
          · exact List.mem_append_left _ hc
          · refine List.mem_append_right _
              (List.mem_map_of_mem _ (List.mem_filter.mpr ⟨he, ?_⟩))
            simp [hc]
        simpa using hmem
      rw [hfil]
      simp
  · intro g2 crs h
    cases hval : validateRelations (entityNames g) rs with
    | error m => simp [createRelations, hval] at h
    | ok u =>
      cases u
      simp only [createRelations, hval, Except.ok.injEq, Prod.mk.injEq] at h
      obtain ⟨hg, hcrs⟩ := h
      subst hcrs
      subst hg
      refine ⟨rfl, rfl, rfl, ?_⟩
      simp only [createRelations]
      rw [show entityNames { g with relations := (g.relations ++ rs.filter
          (fun r => ! (g.relations.map relKey).contains (relKey r))) } =
          entityNames g from rfl, hval]
      have hfil : rs.filter (fun r => ! (({ g with relations := (g.relations ++
          rs.filter (fun r => ! (g.relations.map relKey).contains (relKey r)))
          }).relations.map relKey).contains (relKey r)) = [] := by
        refine List.filter_eq_nil_iff.mpr (fun r hr => ?_)
        have hmem : relKey r ∈ (g.relations ++ rs.filter
            (fun r => ! (g.relations.map relKey).contains (relKey r))).map
            relKey := by
          rw [List.map_append]
          by_cases hc : relKey r ∈ g.relations.map relKey
          · exact List.mem_append_left _ hc
          · refine List.mem_append_right _
              (List.mem_map_of_mem _ (List.mem_filter.mpr ⟨hr, ?_⟩))
            simp [hc]
        have hm2 := hmem
        simp at hm2 ⊢
        intro hnog
        rcases hm2 with ⟨a, ha, hk⟩ | ⟨a, ⟨ha, hforall⟩, hk⟩
        · exact absurd hk (hnog a ha)
        · exact ⟨a, ha, hforall, hk⟩
      rw [hfil]
      simp
  · intro it entity hfind
    simp [addObservations, addObservationsAux, hfind]
  · intro g3 res h
    obtain ⟨h1, h2, h3, h4, h5⟩ := addObservationsAux_ok_spec items g g3 res h
    exact ⟨h1, h2, h5, addObservationsAux_noop items g3 h4⟩

/-- Witness for C1: repeating each of the three calls on the graph they
produced returns an empty delta and leaves the graph unchanged. -/
theorem claim1_witness :
    createEntities
      (KnowledgeGraph.mk
        [Entity.mk "A" "code" [], Entity.mk "B" "code" ["keep me"],
         Entity.mk "C" "memo" []]
        [Relation.mk "A" "B" "related_to"])
      [Entity.mk "A" "memo" [], Entity.mk "C" "memo" []] =
      .ok (KnowledgeGraph.mk
        [Entity.mk "A" "code" [], Entity.mk "B" "code" ["keep me"],
         Entity.mk "C" "memo" []]
        [Relation.mk "A" "B" "related_to"], []) ∧
    createRelations
      (KnowledgeGraph.mk
        [Entity.mk "A" "code" [], Entity.mk "B" "code" ["keep me"]]
        [Relation.mk "A" "B" "related_to", Relation.mk "B" "A" "supports"])
      [Relation.mk "A" "B" "related_to", Relation.mk "B" "A" "supports"] =
      .ok (KnowledgeGraph.mk
        [Entity.mk "A" "code" [], Entity.mk "B" "code" ["keep me"]]
        [Relation.mk "A" "B" "related_to", Relation.mk "B" "A" "supports"], []) ∧
    addObservations
      (KnowledgeGraph.mk
        [Entity.mk "A" "code" [], Entity.mk "B" "code" ["keep me", "x"]]
        [Relation.mk "A" "B" "related_to"])
      [ObservationAdd.mk "B" ["keep me", "x"]] =
      .ok (KnowledgeGraph.mk
        [Entity.mk "A" "code" [], Entity.mk "B" "code" ["keep me", "x"]]
        [Relation.mk "A" "B" "related_to"],
        [ObservationResult.mk "B" []]) := by
  refine ⟨?_, ?_, ?_⟩
  · exact ((claim1_insert_if_absent_delta deleteExampleKG
      [Entity.mk "A" "memo" [], Entity.mk "C" "memo" []] [] []).1
      (KnowledgeGraph.mk
        [Entity.mk "A" "code" [], Entity.mk "B" "code" ["keep me"],
         Entity.mk "C" "memo" []]
        [Relation.mk "A" "B" "related_to"])
      [Entity.mk "C" "memo" []] (by decide)).2.2.2
  · exact ((claim1_insert_if_absent_delta deleteExampleKG []
      [Relation.mk "A" "B" "related_to", Relation.mk "B" "A" "supports"]
      []).2.1
      (KnowledgeGraph.mk
        [Entity.mk "A" "code" [], Entity.mk "B" "code" ["keep me"]]
        [Relation.mk "A" "B" "related_to", Relation.mk "B" "A" "supports"])
      [Relation.mk "B" "A" "supports"] (by decide)).2.2.2
  · exact ((claim1_insert_if_absent_delta deleteExampleKG [] []
      [ObservationAdd.mk "B" ["keep me", "x"]]).2.2.2
      (KnowledgeGraph.mk
        [Entity.mk "A" "code" [], Entity.mk "B" "code" ["keep me", "x"]]
        [Relation.mk "A" "B" "related_to"])
      [ObservationResult.mk "B" ["x"]] (by decide)).2.2.2

theorem lookupCount_cons (a : String × Cooccurrence)
    (l : List (String × Cooccurrence)) (x : String) :
    lookupCount (a :: l) x =
    if (a.1 == x) = true then a.2.count else lookupCount l x := by
  by_cases h : (a.1 == x) = true
  · unfold lookupCount
    rw [@List.find?_cons_of_pos (String × Cooccurrence) (fun p => p.1 == x)
      a l h, if_pos h]
  · unfold lookupCount
    rw [@List.find?_cons_of_neg (String × Cooccurrence) (fun p => p.1 == x)
      a l h, if_neg h]

theorem lookupCount_bumpMap_ne (ce q : Entity) (x : String)
    (hx : x ≠ ce.name) (m : List (String × Cooccurrence)) :
    lookupCount (m.map (fun p => if p.1 == ce.name then
      (p.1, { p.2 with count := p.2.count + 1, quotes := p.2.quotes ++ [q] })
      else p)) x = lookupCount m x := by
  induction m with
  | nil => rfl
  | cons p rest ih =>
    by_cases hp : (p.1 == ce.name) = true
    · have hpx : (p.1 == x) = false := by
        rw [eq_of_beq hp]
        exact beq_eq_false_iff_ne.mpr (fun h => hx h.symm)
      simp only [List.map_cons, if_pos hp]
      rw [lookupCount_cons, lookupCount_cons]
      simp only [hpx]
      exact ih
    · simp only [List.map_cons, if_neg hp]
      rw [lookupCount_cons, lookupCount_cons]
      by_cases hpx : (p.1 == x) = true
      · simp [hpx]
      · simp only [hpx]
        exact ih

theorem lookupCount_bumpMap_eq (ce q : Entity)
    (m : List (String × Cooccurrence))
    (hany : m.any (fun p => p.1 == ce.name) = true) :
    lookupCount (m.map (fun p => if p.1 == ce.name then
      (p.1, { p.2 with count := p.2.count + 1, quotes := p.2.quotes ++ [q] })
      else p)) ce.name = lookupCount m ce.name + 1 := by
  induction m with
  | nil => simp at hany
  | cons p rest ih =>
    by_cases hp : (p.1 == ce.name) = true
    · simp only [List.map_cons, if_pos hp]
      rw [lookupCount_cons, lookupCount_cons]
      simp [hp]
    · simp only [List.map_cons, if_neg hp]
      rw [lookupCount_cons, lookupCount_cons]
      simp only [hp, if_false]
      have hrest : rest.any (fun p => p.1 == ce.name) = true := by
        rcases List.any_eq_true.mp hany with ⟨p2, hp2, hkey⟩
        rcases List.mem_cons.mp hp2 with rfl | hp2r
        · exact absurd hkey hp
        · exact List.any_eq_true.mpr ⟨p2, hp2r, hkey⟩
      exact ih hrest

theorem lookupCount_eq_zero_of_no_key (x : String) :
    ∀ m : List (String × Cooccurrence),
    (∀ p ∈ m, (p.1 == x) = false) → lookupCount m x = 0 := by
  intro m
  induction m with
  | nil => intro _; rfl
  | cons p rest ih =>
    intro h
    rw [lookupCount_cons]
    simp only [h p (List.mem_cons_self p rest), if_false]
    exact ih (fun p2 hp2 => h p2 (List.mem_cons_of_mem _ hp2))

theorem lookupCount_append_single (v : String × Cooccurrence) (x : String) :
    ∀ m : List (String × Cooccurrence), lookupCount (m ++ [v]) x =
      (if (m.any (fun p => p.1 == x)) = true then lookupCount m x
       else if (v.1 == x) = true then v.2.count else 0) := by
  intro m
  induction m with
  | nil =>
    show lookupCount [v] x = _
    rw [lookupCount_cons]
    simp [lookupCount]
  | cons p rest ih =>
    rw [List.cons_append, lookupCount_cons, lookupCount_cons]
    by_cases hp : (p.1 == x) = true
    · simp [hp]
    · have hp2 : (p.1 == x) = false := by simpa using hp
      rw [ih]
      by_cases hra : (rest.any fun p => p.1 == x) = true
      · simp [List.any_cons, hra, hp2]
      · have hra2 : (rest.any fun p => p.1 == x) = false := by
          cases hb : rest.any fun p => p.1 == x with
          | false => rfl
          | true => exact absurd hb hra
        simp [List.any_cons, hra2, hp2]

theorem lookupCount_bump (m : List (String × Cooccurrence)) (ce q : Entity)
    (x : String) :
    lookupCount (bumpOccurrence m ce q) x =
    lookupCount m x + (if x = ce.name then 1 else 0) := by
  by_cases hany : m.any (fun p => p.1 == ce.name) = true
  · rw [bumpOccurrence, if_pos hany]
    by_cases hx : x = ce.name
    · subst hx
      rw [lookupCount_bumpMap_eq ce q m hany]
      simp
    · rw [lookupCount_bumpMap_ne ce q x hx m]
      simp [hx]
  · rw [bumpOccurrence, if_neg hany]
    rw [lookupCount_append_single]
    by_cases hx : x = ce.name
    · subst hx
      have hnokey : (m.any (fun p => p.1 == ce.name)) = false := by
        cases hb : m.any (fun p => p.1 == ce.name) with
        | false => rfl
        | true => exact absurd hb hany
      have hzero : lookupCount m ce.name = 0 := by
        refine lookupCount_eq_zero_of_no_key ce.name m (fun p hp => ?_)
        cases hb : (p.1 == ce.name) with
        | false => rfl
        | true => exact absurd (List.any_eq_true.mpr ⟨p, hp, hb⟩) hany
      simp [hnokey, hzero]
    · have hvx : ((ce.name : String) == x) = false :=
        beq_eq_false_iff_ne.mpr (fun h => hx h.symm)
      by_cases hmx : (m.any (fun p => p.1 == x)) = true
      · simp [hmx, hx]
      · have hzero : lookupCount m x = 0 := by
          refine lookupCount_eq_zero_of_no_key x m (fun p hp => ?_)
          cases hb : (p.1 == x) with
          | false => rfl
          | true => exact absurd (List.any_eq_true.mpr ⟨p, hp, hb⟩) hmx
        simp [hmx, hvx, hx, hzero]

theorem lookupCount_inner_fold (g : KnowledgeGraph) (c : String) (q : Entity)
    (x : String) : ∀ (rels : List Relation) (m : List (String × Cooccurrence)),
    lookupCount (rels.foldl (fun m rel =>
      if rel.relationType == "codes" && rel.«from» != c && rel.«to» == q.name then
        match g.entities.find?
            (fun e => e.name == rel.«from» && e.entityType == "code") with
        | some other => bumpOccurrence m other q
        | none => m
      else m) m) x =
    lookupCount m x +
    (if (g.entities.find? (fun e => e.name == x && e.entityType == "code")).isSome
        = true then
      (rels.filter (fun rel => rel.relationType == "codes" && rel.«from» != c &&
        rel.«to» == q.name && rel.«from» == x)).length
    else 0) := by
  intro rels
  induction rels with
  | nil =>
    intro m
    simp
  | cons rel rest ih =>
    intro m
    rw [List.foldl_cons]
    by_cases hc : (rel.relationType == "codes" && rel.«from» != c &&
        rel.«to» == q.name) = true
    · rw [if_pos hc]
      cases hfind : g.entities.find?
          (fun e => e.name == rel.«from» && e.entityType == "code") with
      | none =>
        rw [ih m]
        congr 1
        by_cases hsome : (g.entities.find?
            (fun e => e.name == x && e.entityType == "code")).isSome = true
        · rw [if_pos hsome, if_pos hsome]
          have hfx : (rel.«from» == x) = false := by
            cases hb : rel.«from» == x with
            | false => rfl
            | true =>
              have hx := eq_of_beq hb
              rw [hx] at hfind
              rw [hfind] at hsome
              simp at hsome
          have hpred : (rel.relationType == "codes" && rel.«from» != c &&
              rel.«to» == q.name && rel.«from» == x) = false := by
            rw [Bool.and_eq_false_iff]
            exact Or.inr hfx
          rw [List.filter_cons, if_neg (by simp [hpred])]
        · rw [if_neg hsome, if_neg hsome]
      | some other =>
        have hother : other.name = rel.«from» := by
          have hps := List.find?_some hfind
          exact eq_of_beq ((Bool.and_eq_true _ _).mp hps).1
        rw [ih (bumpOccurrence m other q), lookupCount_bump, Nat.add_assoc]
        congr 1
        by_cases hsome : (g.entities.find?
            (fun e => e.name == x && e.entityType == "code")).isSome = true
        · rw [if_pos hsome, if_pos hsome]
          by_cases hfx : (rel.«from» == x) = true
          · have hxo : x = other.name := by rw [hother, eq_of_beq hfx]
            have hpred : (rel.relationType == "codes" && rel.«from» != c &&
                rel.«to» == q.name && rel.«from» == x) = true := by
              rw [Bool.and_eq_true]
              exact ⟨hc, hfx⟩
            rw [if_pos hxo, List.filter_cons, if_pos hpred]
            rw [List.length_cons, Nat.add_comm]
          · have hfx2 : (rel.«from» == x) = false := by
              cases hb : rel.«from» == x with
              | false => rfl
              | true => exact absurd hb hfx
            have hxo : ¬ (x = other.name) := by
              intro h
              apply hfx
              rw [show x = rel.«from» from by rw [h, hother]]
              simp
            have hpred : (rel.relationType == "codes" && rel.«from» != c &&
                rel.«to» == q.name && rel.«from» == x) = false := by
              rw [Bool.and_eq_false_iff]
              exact Or.inr hfx2
            rw [if_neg hxo, List.filter_cons, if_neg (by simp [hpred])]
            simp
        · rw [if_neg hsome, if_neg hsome]
          have hxo : ¬ (x = other.name) := by
            intro h
            apply hsome
            have hmem := List.mem_of_find?_eq_some hfind
            have hps := List.find?_some hfind
            have htp : (other.entityType == "code") = true :=
              ((Bool.and_eq_true _ _).mp hps).2
            have hpred : (other.name == x && other.entityType == "code") = true := by
              rw [Bool.and_eq_true]
              refine ⟨?_, htp⟩
              rw [h]
              simp
            exact List.find?_isSome.mpr ⟨other, hmem, hpred⟩
          rw [if_neg hxo]
    · rw [if_neg hc, ih m]
      congr 1
      by_cases hsome : (g.entities.find?
          (fun e => e.name == x && e.entityType == "code")).isSome = true
      · rw [if_pos hsome, if_pos hsome]
        have hpred : (rel.relationType == "codes" && rel.«from» != c &&
            rel.«to» == q.name && rel.«from» == x) = false := by
          cases hb : (rel.relationType == "codes" && rel.«from» != c &&
              rel.«to» == q.name && rel.«from» == x) with
          | false => rfl
          | true => exact absurd ((Bool.and_eq_true _ _).mp hb).1 hc
        rw [List.filter_cons, if_neg (by simp [hpred])]
      · rw [if_neg hsome, if_neg hsome]

theorem lookupCount_cooccInner (g : KnowledgeGraph) (c : String) (q : Entity)
    (x : String) (m : List (String × Cooccurrence)) :
    lookupCount (cooccInner g c q m) x =
    lookupCount m x +
    (if (g.entities.find? (fun e => e.name == x && e.entityType == "code")).isSome
        = true then
      (g.relations.filter (fun rel => rel.relationType == "codes" &&
        rel.«from» != c && rel.«to» == q.name && rel.«from» == x)).length
    else 0) :=
  lookupCount_inner_fold g c q x g.relations m

theorem lookupCount_cooccMap_fold (g : KnowledgeGraph) (c x : String) :
    ∀ (qs : List Entity) (m : List (String × Cooccurrence)),
    lookupCount (qs.foldl (fun m q => cooccInner g c q m) m) x =
    lookupCount m x +
    (qs.map (fun q =>
      if (g.entities.find?
          (fun e => e.name == x && e.entityType == "code")).isSome = true then
        (g.relations.filter (fun rel => rel.relationType == "codes" &&
          rel.«from» != c && rel.«to» == q.name && rel.«from» == x)).length
      else 0)).sum := by
  intro qs
  induction qs with
  | nil =>
    intro m
    simp
  | cons q rest ih =>
    intro m
    rw [List.foldl_cons, ih (cooccInner g c q m), lookupCount_cooccInner,
      List.map_cons, List.sum_cons, Nat.add_assoc]

theorem lookupCount_cooccMap (g : KnowledgeGraph) (c x : String)
    (qs : List Entity) :
    lookupCount (cooccMap g c qs) x =
    (qs.map (fun q =>
      if (g.entities.find?
          (fun e => e.name == x && e.entityType == "code")).isSome = true then
        (g.relations.filter (fun rel => rel.relationType == "codes" &&
          rel.«from» != c && rel.«to» == q.name && rel.«from» == x)).length
      else 0)).sum := by
  show lookupCount (qs.foldl (fun m q => cooccInner g c q m) []) x = _
  rw [lookupCount_cooccMap_fold]
  show 0 + _ = _
  rw [Nat.zero_add]

theorem length_filter_of_unique {α : Type} [DecidableEq α] (l : List α)
    (hnd : l.Nodup) (p : α → Bool) (v : α) (hv : ∀ a, p a = true → a = v) :
    (l.filter p).length = if v ∈ l ∧ p v = true then 1 else 0 := by
  cases hfp : l.filter p with
  | nil =>
    rw [if_neg]
    · rfl
    · rintro ⟨hmem, hpv⟩
      have : v ∈ l.filter p := List.mem_filter.mpr ⟨hmem, hpv⟩
      rw [hfp] at this
      exact List.not_mem_nil v this
  | cons a rest =>
    have hamem : a ∈ l.filter p := by
      rw [hfp]
      exact List.mem_cons_self a rest
    have ha : a = v := hv a (List.of_mem_filter hamem)
    cases rest with
    | nil =>
      rw [if_pos]
      · rfl
      · subst ha
        exact ⟨List.mem_of_mem_filter hamem, List.of_mem_filter hamem⟩
    | cons b rest2 =>
      exfalso
      have hbmem : b ∈ l.filter p := by
        rw [hfp]
        exact List.mem_cons_of_mem _ (List.mem_cons_self b rest2)
      have hb : b = v := hv b (List.of_mem_filter hbmem)
      have hnd2 : (l.filter p).Nodup := hnd.sublist (List.filter_sublist l)
      rw [hfp] at hnd2
      have : a ∉ b :: rest2 := (List.nodup_cons.mp hnd2).1
      exact this (by rw [ha, ← hb]; exact List.mem_cons_self b rest2)

theorem sum_indicator {α : Type} (p : α → Bool) :
    ∀ l : List α,
    (l.map (fun a => if p a = true then 1 else 0)).sum = (l.filter p).length := by
  intro l
  induction l with
  | nil => rfl
  | cons a rest ih =>
    rw [List.map_cons, List.sum_cons, List.filter_cons]
    by_cases hp : p a = true
    · simp [hp, ih, Nat.add_comm]
    · simp [hp, ih]

theorem length_filter_map_name (p : String → Bool) :
    ∀ qs : List Entity,
    ((qs.map (fun q => q.name)).filter p).length =
    (qs.filter (fun q => p q.name)).length := by
  intro qs
  induction qs with
  | nil => rfl
  | cons q rest ih =>
    rw [List.map_cons, List.filter_cons, List.filter_cons]
    by_cases hp : p q.name = true
    · simp [hp, ih]
    · simp [hp, ih]

theorem codeQuotes_step_eq (g : KnowledgeGraph) (c : String) (rel : Relation)
    (q : Entity)
    (hf : (if rel.relationType == "codes" && rel.«from» == c then
      g.entities.find? (fun e => e.name == rel.«to» && e.entityType == "quote")
      else none) = some q) :
    rel = Relation.mk c q.name "codes" ∧
    (g.entities.find? (fun e => e.name == q.name && e.entityType == "quote")) =
      some q := by
  by_cases hcond : (rel.relationType == "codes" && rel.«from» == c) = true
  · rw [if_pos hcond] at hf
    obtain ⟨hty, hfr⟩ := (Bool.and_eq_true _ _).mp hcond
    have hq1 := List.find?_some hf
    have hq2 : q.name = rel.«to» := eq_of_beq ((Bool.and_eq_true _ _).mp hq1).1
    have h1 : rel.«from» = c := eq_of_beq hfr
    have h2 : rel.relationType = "codes" := eq_of_beq hty
    constructor
    · cases rel with
      | mk f tt ty =>
        simp only at h1 h2 hq2
        rw [h1, h2, hq2]
    · rw [← hq2] at hf
      exact hf
  · rw [if_neg hcond] at hf
    exact absurd hf (by simp)

theorem mem_codeQuotes_names (g : KnowledgeGraph) (c t : String) :
    t ∈ (codeQuotes g c).map (fun q => q.name) ↔
    (Relation.mk c t "codes") ∈ g.relations ∧
    (g.entities.find?
      (fun e => e.name == t && e.entityType == "quote")).isSome = true := by
  constructor
  · intro h
    obtain ⟨q, hq, rfl⟩ := List.mem_map.mp h
    obtain ⟨rel, hrel, hf⟩ := List.mem_filterMap.mp hq
    obtain ⟨heq, hfind⟩ := codeQuotes_step_eq g c rel q hf
    refine ⟨heq ▸ hrel, ?_⟩
    rw [hfind]
    rfl
  · rintro ⟨hrel, hsome⟩
    obtain ⟨q, hq⟩ := Option.isSome_iff_exists.mp hsome
    have hps := List.find?_some hq
    have hqname : q.name = t := eq_of_beq ((Bool.and_eq_true _ _).mp hps).1
    refine List.mem_map.mpr ⟨q, ?_, hqname⟩
    refine List.mem_filterMap.mpr ⟨Relation.mk c t "codes", hrel, ?_⟩
    rw [if_pos (by simp)]
    show g.entities.find? (fun e => e.name == t && e.entityType == "quote") =
      some q
    exact hq

theorem any_codes_iff (g : KnowledgeGraph) (x t : String) :
    (g.relations.any (fun rel => rel.relationType == "codes" &&
      rel.«from» == x && rel.«to» == t)) = true ↔
    (Relation.mk x t "codes") ∈ g.relations := by
  rw [List.any_eq_true]
  constructor
  · rintro ⟨rel, hrel, hp⟩
    rw [Bool.and_eq_true, Bool.and_eq_true] at hp
    have h1 : rel.relationType = "codes" := eq_of_beq hp.1.1
    have h2 : rel.«from» = x := eq_of_beq hp.1.2
    have h3 : rel.«to» = t := eq_of_beq hp.2
    have : Relation.mk x t "codes" = rel := by
      cases rel with
      | mk f tt ty =>
        simp only at h1 h2 h3
        rw [h1, h2, h3]
    rw [this]
    exact hrel
  · intro h
    exact ⟨Relation.mk x t "codes", h, by simp⟩

theorem nodup_codeQuotes_names (g : KnowledgeGraph) (c : String) :
    ∀ rels : List Relation, rels.Nodup →
    ((rels.filterMap (fun rel =>
      if rel.relationType == "codes" && rel.«from» == c then
        g.entities.find?
          (fun e => e.name == rel.«to» && e.entityType == "quote")
      else none)).map (fun q => q.name)).Nodup := by
  intro rels
  induction rels with
  | nil => intro _; simp
  | cons rel rest ih =>
    intro hnd
    have hnd2 := List.nodup_cons.mp hnd
    rw [List.filterMap_cons]
    cases hf : (if rel.relationType == "codes" && rel.«from» == c then
        g.entities.find?
          (fun e => e.name == rel.«to» && e.entityType == "quote")
      else none) with
    | none => exact ih hnd2.2
    | some q =>
      rw [List.map_cons, List.nodup_cons]
      refine ⟨?_, ih hnd2.2⟩
      intro hqmem
      obtain ⟨q2, hq2, hname⟩ := List.mem_map.mp hqmem
      obtain ⟨rel2, hrel2, hf2⟩ := List.mem_filterMap.mp hq2
      obtain ⟨heq2, _⟩ := codeQuotes_step_eq g c rel2 q2 hf2
      obtain ⟨heq1, _⟩ := codeQuotes_step_eq g c rel q hf
      have : rel = rel2 := by
        rw [heq1, heq2, hname]
      exact hnd2.1 (this ▸ hrel2)

theorem map_congr_mem {α β : Type} (f g : α → β) :
    ∀ l : List α, (∀ a ∈ l, f a = g a) → l.map f = l.map g := by
  intro l
  induction l with
  | nil => intro _; rfl
  | cons a rest ih =>
    intro h
    rw [List.map_cons, List.map_cons, h a (List.mem_cons_self a rest),
      ih (fun b hb => h b (List.mem_cons_of_mem _ hb))]

theorem lookup_cooccMap_eq (g : KnowledgeGraph) (c x : String)
    (hnd : g.relations.Nodup) :
    lookupCount (cooccMap g c (codeQuotes g c)) x =
    (if x ≠ c ∧ (g.entities.find?
        (fun e => e.name == x && e.entityType == "code")).isSome = true
     then numCommonQuotes g c x else 0) := by
  rw [lookupCount_cooccMap]
  by_cases hsome : (g.entities.find?
      (fun e => e.name == x && e.entityType == "code")).isSome = true
  · by_cases hxc : x = c
    · subst hxc
      have hzero : ∀ q ∈ codeQuotes g x,
          (if (g.entities.find?
              (fun e => e.name == x && e.entityType == "code")).isSome = true
           then (g.relations.filter (fun rel => rel.relationType == "codes" &&
             rel.«from» != x && rel.«to» == q.name && rel.«from» == x)).length
           else 0) = (fun _ : Entity => 0) q := by
        intro q _
        rw [if_pos hsome]
        have hfil : g.relations.filter (fun rel =>
            rel.relationType == "codes" && rel.«from» != x &&
            rel.«to» == q.name && rel.«from» == x) = [] := by
          refine List.filter_eq_nil_iff.mpr (fun rel _ hp => ?_)
          rw [Bool.and_eq_true, Bool.and_eq_true, Bool.and_eq_true] at hp
          have h1 : rel.«from» = x := eq_of_beq hp.2
          have h2 := hp.1.1.2
          rw [h1] at h2
          simp at h2
        rw [hfil]
        rfl
      rw [map_congr_mem _ _ _ hzero]
      simp
    · have hpoint : ∀ q ∈ codeQuotes g c,
          (if (g.entities.find?
              (fun e => e.name == x && e.entityType == "code")).isSome = true
           then (g.relations.filter (fun rel => rel.relationType == "codes" &&
             rel.«from» != c && rel.«to» == q.name && rel.«from» == x)).length
           else 0) =
          (if (g.relations.any (fun rel =>
            rel.relationType == "codes" && rel.«from» == x &&
            rel.«to» == q.name)) = true then 1 else 0) := by
        intro q _
        rw [if_pos hsome]
        have hv : ∀ rel : Relation, (rel.relationType == "codes" &&
            rel.«from» != c && rel.«to» == q.name && rel.«from» == x) = true →
            rel = Relation.mk x q.name "codes" := by
          intro rel hp
          rw [Bool.and_eq_true, Bool.and_eq_true, Bool.and_eq_true] at hp
          have h1 : rel.relationType = "codes" := eq_of_beq hp.1.1.1
          have h2 : rel.«to» = q.name := eq_of_beq hp.1.2
          have h3 : rel.«from» = x := eq_of_beq hp.2
          cases rel with
          | mk f tt ty =>
            simp only at h1 h2 h3
            rw [h1, h2, h3]
        rw [length_filter_of_unique g.relations hnd _ _ hv]
        have hpv : ((Relation.mk x q.name "codes").relationType == "codes" &&
            (Relation.mk x q.name "codes").«from» != c &&
            (Relation.mk x q.name "codes").«to» == q.name &&
            (Relation.mk x q.name "codes").«from» == x) = true := by
          simp [bne_iff_ne]
          exact hxc
        by_cases hmem : (Relation.mk x q.name "codes") ∈ g.relations
        · rw [if_pos ⟨hmem, hpv⟩, if_pos ((any_codes_iff g x q.name).mpr hmem)]
        · rw [if_neg (fun hcc => hmem hcc.1), if_neg
            (fun hcc => hmem ((any_codes_iff g x q.name).mp hcc))]
      rw [map_congr_mem _ (fun q : Entity => if (g.relations.any (fun rel =>
            rel.relationType == "codes" && rel.«from» == x &&
            rel.«to» == q.name)) = true then 1 else 0) _ hpoint, sum_indicator]
      rw [if_pos ⟨hxc, hsome⟩]
      rfl
  · have hzero : ∀ q ∈ codeQuotes g c,
        (if (g.entities.find?
            (fun e => e.name == x && e.entityType == "code")).isSome = true
         then (g.relations.filter (fun rel => rel.relationType == "codes" &&
           rel.«from» != c && rel.«to» == q.name && rel.«from» == x)).length
         else 0) = (fun _ : Entity => 0) q := by
      intro q _
      rw [if_neg hsome]
    rw [map_congr_mem _ _ _ hzero]
    have : ¬ (x ≠ c ∧ (g.entities.find?
        (fun e => e.name == x && e.entityType == "code")).isSome = true) :=
      fun hcc => hsome hcc.2
    rw [if_neg this]
    simp

theorem numCommon_symm (g : KnowledgeGraph) (c x : String)
    (hnd : g.relations.Nodup) :
    numCommonQuotes g c x = numCommonQuotes g x c := by
  show ((codeQuotes g c).filter (fun q => g.relations.any
    (fun rel => rel.relationType == "codes" && rel.«from» == x &&
      rel.«to» == q.name))).length = _
  rw [← length_filter_map_name (fun t => g.relations.any
    (fun rel => rel.relationType == "codes" && rel.«from» == x &&
      rel.«to» == t)) (codeQuotes g c)]
  show _ = ((codeQuotes g x).filter (fun q => g.relations.any
    (fun rel => rel.relationType == "codes" && rel.«from» == c &&
      rel.«to» == q.name))).length
  rw [← length_filter_map_name (fun t => g.relations.any
    (fun rel => rel.relationType == "codes" && rel.«from» == c &&
      rel.«to» == t)) (codeQuotes g x)]
  have hnd1 : (((codeQuotes g c).map (fun q => q.name)).filter
      (fun t => g.relations.any (fun rel => rel.relationType == "codes" &&
        rel.«from» == x && rel.«to» == t))).Nodup :=
    (nodup_codeQuotes_names g c g.relations hnd).filter _
  have hnd2 : (((codeQuotes g x).map (fun q => q.name)).filter
      (fun t => g.relations.any (fun rel => rel.relationType == "codes" &&
        rel.«from» == c && rel.«to» == t))).Nodup :=
    (nodup_codeQuotes_names g x g.relations hnd).filter _
  refine List.Perm.length_eq ((List.perm_ext_iff_of_nodup hnd1 hnd2).2 ?_)
  intro t
  rw [List.mem_filter, List.mem_filter, mem_codeQuotes_names,
    mem_codeQuotes_names, any_codes_iff, any_codes_iff]
  constructor
  · rintro ⟨⟨hc, hq⟩, hx⟩
    exact ⟨⟨hx, hq⟩, hc⟩
  · rintro ⟨⟨hx, hq⟩, hc⟩
    exact ⟨⟨hc, hq⟩, hx⟩

theorem cmapInv_nil (g : KnowledgeGraph) (c : String) : CMapInv g c [] :=
  ⟨List.nodup_nil, fun pr hpr => absurd hpr (List.not_mem_nil pr)⟩

theorem keys_bumpMap (ce : Entity) (q : Entity) :
    ∀ m : List (String × Cooccurrence),
    (m.map (fun p => if p.1 == ce.name then
      (p.1, { p.2 with count := p.2.count + 1, quotes := p.2.quotes ++ [q] })
      else p)).map (fun p => p.1) = m.map (fun p => p.1) := by
  intro m
  induction m with
  | nil => rfl
  | cons p rest ih =>
    by_cases hp : (p.1 == ce.name) = true
    · simp only [List.map_cons, if_pos hp]
      rw [ih]
    · simp only [List.map_cons, if_neg hp]
      rw [ih]

theorem bumpOccurrence_inv (g : KnowledgeGraph) (c : String) (ce q : Entity)
    (m : List (String × Cooccurrence)) (hce : ce.name ≠ c)
    (hsome : (g.entities.find?
      (fun e => e.name == ce.name && e.entityType == "code")).isSome = true)
    (hinv : CMapInv g c m) : CMapInv g c (bumpOccurrence m ce q) := by
  obtain ⟨hnd, hent⟩ := hinv
  by_cases hany : m.any (fun p => p.1 == ce.name) = true
  · rw [bumpOccurrence, if_pos hany]
    refine ⟨?_, ?_⟩
    · rw [keys_bumpMap]
      exact hnd
    · intro pr hpr
      obtain ⟨p0, hp0, hfp⟩ := List.mem_map.mp hpr
      by_cases hp : (p0.1 == ce.name) = true
      · rw [if_pos hp] at hfp
        rw [← hfp]
        exact ⟨(hent p0 hp0).1, (hent p0 hp0).2.1, (hent p0 hp0).2.2⟩
      · rw [if_neg hp] at hfp
        rw [← hfp]
        exact hent p0 hp0
  · rw [bumpOccurrence, if_neg hany]
    refine ⟨?_, ?_⟩
    · rw [List.map_append, List.nodup_append]
      refine ⟨hnd, List.nodup_singleton _, ?_⟩
      intro a ha hb
      rw [List.map_cons, List.map_nil, List.mem_singleton] at hb
      obtain ⟨p0, hp0, hfp⟩ := List.mem_map.mp ha
      exact hany (List.any_eq_true.mpr ⟨p0, hp0,
        by rw [hfp, hb]; exact beq_self_eq_true ce.name⟩)
    · intro pr hpr
      rcases List.mem_append.mp hpr with h1 | h2
      · exact hent pr h1
      · rw [List.mem_singleton] at h2
        rw [h2]
        exact ⟨rfl, hce, hsome⟩

theorem cooccInner_fold_inv (g : KnowledgeGraph) (c : String) (q : Entity) :
    ∀ (rels : List Relation) (m : List (String × Cooccurrence)),
    CMapInv g c m →
    CMapInv g c (rels.foldl (fun m rel =>
      if rel.relationType == "codes" && rel.«from» != c &&
          rel.«to» == q.name then
        match g.entities.find?
            (fun e => e.name == rel.«from» && e.entityType == "code") with
        | some other => bumpOccurrence m other q
        | none => m
      else m) m) := by
  intro rels
  induction rels with
  | nil => intro m h; exact h
  | cons rel rest ih =>
    intro m h
    rw [List.foldl_cons]
    refine ih _ ?_
    by_cases hc : (rel.relationType == "codes" && rel.«from» != c &&
        rel.«to» == q.name) = true
    · rw [if_pos hc]
      cases hf : g.entities.find?
          (fun e => e.name == rel.«from» && e.entityType == "code") with
      | none => exact h
      | some other =>
        have hother := List.find?_some hf
        rw [Bool.and_eq_true] at hother
        have hname : other.name = rel.«from» := eq_of_beq hother.1
        rw [Bool.and_eq_true, Bool.and_eq_true] at hc
        have hfrom : rel.«from» ≠ c := bne_iff_ne.mp hc.1.2
        refine bumpOccurrence_inv g c other q _ ?_ ?_ h
        · rw [hname]; exact hfrom
        · rw [hname, hf]; rfl
    · rw [if_neg hc]
      exact h

theorem cooccInner_inv (g : KnowledgeGraph) (c : String) (q : Entity)
    (m : List (String × Cooccurrence)) (h : CMapInv g c m) :
    CMapInv g c (cooccInner g c q m) :=
  cooccInner_fold_inv g c q g.relations m h

theorem cooccMap_fold_inv (g : KnowledgeGraph) (c : String) :
    ∀ (qs : List Entity) (m : List (String × Cooccurrence)),
    CMapInv g c m →
    CMapInv g c (qs.foldl (fun m q => cooccInner g c q m) m) := by
  intro qs
  induction qs with
  | nil => intro m h; exact h
  | cons q rest ih =>
    intro m h
    rw [List.foldl_cons]
    exact ih _ (cooccInner_inv g c q m h)

theorem cooccMap_inv (g : KnowledgeGraph) (c : String) (qs : List Entity) :
    CMapInv g c (cooccMap g c qs) :=
  cooccMap_fold_inv g c qs [] (cmapInv_nil g c)

theorem lookupCount_of_mem_nodup :
    ∀ (m : List (String × Cooccurrence)),
    (m.map (fun p => p.1)).Nodup →
    ∀ pr ∈ m, lookupCount m pr.1 = pr.2.count := by
  intro m
  induction m with
  | nil => intro _ pr hpr; exact absurd hpr (List.not_mem_nil pr)
  | cons p0 rest ih =>
    intro hnd pr hpr
    rw [lookupCount_cons]
    rcases List.mem_cons.mp hpr with heq | hpr2
    · rw [heq, if_pos (beq_self_eq_true p0.1)]
    · rw [List.map_cons, List.nodup_cons] at hnd
      have hne : (p0.1 == pr.1) = false := by
        cases hb : p0.1 == pr.1 with
        | false => rfl
        | true =>
          exfalso
          exact hnd.1 (by
            rw [eq_of_beq hb]
            exact List.mem_map.mpr ⟨pr, hpr2, rfl⟩)
      have hnep : ¬ (p0.1 == pr.1) = true := by
        rw [hne]
        exact Bool.false_ne_true
      rw [if_neg hnep]
      exact ih hnd.2 pr hpr2

theorem find?_eq_of_perm_unique {α : Type} (p : α → Bool)
    (l1 l2 : List α) (hperm : List.Perm l1 l2)
    (hu : ∀ a ∈ l2, ∀ b ∈ l2, p a = true → p b = true → a = b) :
    l1.find? p = l2.find? p := by
  cases hf1 : l1.find? p with
  | none =>
    cases hf2 : l2.find? p with
    | none => rfl
    | some b =>
      exact absurd (List.find?_some hf2)
        (List.find?_eq_none.mp hf1 b
          (hperm.mem_iff.mpr (List.mem_of_find?_eq_some hf2)))
  | some a =>
    cases hf2 : l2.find? p with
    | none =>
      exact absurd (List.find?_some hf1)
        (List.find?_eq_none.mp hf2 a
          (hperm.mem_iff.mp (List.mem_of_find?_eq_some hf1)))
    | some b =>
      rw [hu a (hperm.mem_iff.mp (List.mem_of_find?_eq_some hf1)) b
        (List.mem_of_find?_eq_some hf2) (List.find?_some hf1)
        (List.find?_some hf2)]

theorem values_find_lookup (x : String) :
    ∀ m : List (String × Cooccurrence),
    (m.map (fun p => p.1)).Nodup →
    (∀ pr ∈ m, pr.2.code.name = pr.1) →
    (match (m.map (fun p => p.2)).find? (fun occ => occ.code.name == x) with
     | some occ => occ.count
     | none => 0) = lookupCount m x := by
  intro m
  induction m with
  | nil => intro _ _; rfl
  | cons p0 rest ih =>
    intro hnd hcode
    rw [List.map_cons, lookupCount_cons]
    by_cases hp : (p0.1 == x) = true
    · have hcn : (p0.2.code.name == x) = true := by
        rw [hcode p0 (List.mem_cons_self p0 rest)]
        exact hp
      rw [@List.find?_cons_of_pos Cooccurrence
        (fun occ => occ.code.name == x) p0.2 (rest.map (fun p => p.2)) hcn,
        if_pos hp]
    · have hcn : ¬ (p0.2.code.name == x) = true := by
        rw [hcode p0 (List.mem_cons_self p0 rest)]
        exact hp
      rw [@List.find?_cons_of_neg Cooccurrence
        (fun occ => occ.code.name == x) p0.2 (rest.map (fun p => p.2)) hcn,
        if_neg hp]
      rw [List.map_cons, List.nodup_cons] at hnd
      exact ih hnd.2 (fun pr hpr => hcode pr (List.mem_cons_of_mem _ hpr))

theorem reportedCount_char (g : KnowledgeGraph) (c x : String) :
    reportedCount g c x =
    (match g.entities.find?
        (fun e => e.name == c && e.entityType == "code") with
     | none => 0
     | some _ => lookupCount (cooccMap g c (codeQuotes g c)) x) := by
  cases hroot : g.entities.find?
      (fun e => e.name == c && e.entityType == "code") with
  | none =>
    show reportedCount g c x = 0
    unfold reportedCount getCodeCooccurrence
    rw [hroot]
  | some code =>
    show reportedCount g c x = lookupCount (cooccMap g c (codeQuotes g c)) x
    unfold reportedCount getCodeCooccurrence
    rw [hroot]
    show (match (List.insertionSort cooccGE
        ((cooccMap g c (codeQuotes g c)).map (fun p => p.2))).find?
        (fun occ => occ.code.name == x) with
      | some occ => occ.count
      | none => 0) = lookupCount (cooccMap g c (codeQuotes g c)) x
    obtain ⟨hknd, hents⟩ := cooccMap_inv g c (codeQuotes g c)
    have hperm : List.Perm
        (List.insertionSort cooccGE
          ((cooccMap g c (codeQuotes g c)).map (fun p => p.2)))
        ((cooccMap g c (codeQuotes g c)).map (fun p => p.2)) :=
      List.perm_insertionSort cooccGE _
    have huniq : ∀ a ∈ (cooccMap g c (codeQuotes g c)).map (fun p => p.2),
        ∀ b ∈ (cooccMap g c (codeQuotes g c)).map (fun p => p.2),
        (a.code.name == x) = true → (b.code.name == x) = true → a = b := by
      intro a ha b hb hax hbx
      obtain ⟨pa, hpa, hfa⟩ := List.mem_map.mp ha
      obtain ⟨pb, hpb, hfb⟩ := List.mem_map.mp hb
      have hka : pa.1 = x := by
        rw [← (hents pa hpa).1, hfa]
        exact eq_of_beq hax
      have hkb : pb.1 = x := by
        rw [← (hents pb hpb).1, hfb]
        exact eq_of_beq hbx
      have hpab : pa = pb :=
        List.inj_on_of_nodup_map hknd hpa hpb (by
          show pa.1 = pb.1
          rw [hka, hkb])
      rw [← hfa, ← hfb, hpab]
    rw [find?_eq_of_perm_unique _ _ _ hperm huniq]
    exact values_find_lookup x (cooccMap g c (codeQuotes g c)) hknd
      (fun pr hpr => (hents pr hpr).1)

/-- C8: on a graph whose relation list is duplicate-free, every successful
`getCodeCooccurrence` call returns its co-occurrence list sorted in
descending order of count, with each listed count equal to the number of
quotes tagged via `codes` relations by both the root code and the listed
code; the reported count is symmetric between any two code names; and in
the concrete graph where codes `C1x` and `C2x` both code the single quote
`Q1`, each reports the other with count 1. -/
theorem claim8_cooccurrence (g : KnowledgeGraph) (c cp : String)
    (hnd : g.relations.Nodup) :
    (∀ code n list, getCodeCooccurrence g c = .ok (code, n, list) →
      List.Pairwise (fun a b => b.count ≤ a.count) list ∧
      ∀ occ ∈ list, occ.count = numCommonQuotes g c occ.code.name) ∧
    reportedCount g c cp = reportedCount g cp c ∧
    reportedCount cooccExampleKG "C1x" "C2x" = 1 ∧
    reportedCount cooccExampleKG "C2x" "C1x" = 1 := by
  refine ⟨?_, ?_, by decide, by decide⟩
  · intro code n list h
    unfold getCodeCooccurrence at h
    cases hroot : g.entities.find?
        (fun e => e.name == c && e.entityType == "code") with
    | none =>
      rw [hroot] at h
      exact Except.noConfusion h
    | some code0 =>
      rw [hroot] at h
      simp only [Except.ok.injEq, Prod.mk.injEq] at h
      obtain ⟨h1, h2, h3⟩ := h
      subst h3
      constructor
      · exact List.sorted_insertionSort cooccGE _
      · intro occ hocc
        have hoccv : occ ∈ (cooccMap g c (codeQuotes g c)).map (fun p => p.2) :=
          (List.perm_insertionSort cooccGE _).mem_iff.mp hocc
        obtain ⟨pr, hpr, rfl⟩ := List.mem_map.mp hoccv
        obtain ⟨hknd, hents⟩ := cooccMap_inv g c (codeQuotes g c)
        obtain ⟨hcn, hne, hsome⟩ := hents pr hpr
        show pr.2.count = numCommonQuotes g c pr.2.code.name
        rw [hcn, ← lookupCount_of_mem_nodup _ hknd pr hpr,
          lookup_cooccMap_eq g c pr.1 hnd, if_pos ⟨hne, hsome⟩]
  · rw [reportedCount_char g c cp, reportedCount_char g cp c]
    cases hc : g.entities.find?
        (fun e => e.name == c && e.entityType == "code") with
    | none =>
      cases hcp : g.entities.find?
          (fun e => e.name == cp && e.entityType == "code") with
      | none => rfl
      | some ecp =>
        show (0 : Nat) = lookupCount (cooccMap g cp (codeQuotes g cp)) c
        rw [lookup_cooccMap_eq g cp c hnd]
        have hns : ¬ ((g.entities.find?
            (fun e => e.name == c && e.entityType == "code")).isSome
            = true) := by
          rw [hc]
          exact Bool.false_ne_true
        rw [if_neg (fun hh => hns hh.2)]
    | some ec =>
      cases hcp : g.entities.find?
          (fun e => e.name == cp && e.entityType == "code") with
      | none =>
        show lookupCount (cooccMap g c (codeQuotes g c)) cp = (0 : Nat)
        rw [lookup_cooccMap_eq g c cp hnd]
        have hns : ¬ ((g.entities.find?
            (fun e => e.name == cp && e.entityType == "code")).isSome
            = true) := by
          rw [hcp]
          exact Bool.false_ne_true
        rw [if_neg (fun hh => hns hh.2)]
      | some ecp =>
        show lookupCount (cooccMap g c (codeQuotes g c)) cp =
          lookupCount (cooccMap g cp (codeQuotes g cp)) c
        rw [lookup_cooccMap_eq g c cp hnd, lookup_cooccMap_eq g cp c hnd]
        by_cases hcc : cp = c
        · subst hcc
          rw [if_neg (fun hh => hh.1 rfl)]
        · have h1 : ((g.entities.find?
              (fun e => e.name == cp && e.entityType == "code")).isSome
              = true) := by
            rw [hcp]
            rfl
          have h2 : ((g.entities.find?
              (fun e => e.name == c && e.entityType == "code")).isSome
              = true) := by
            rw [hc]
            rfl
          rw [if_pos ⟨hcc, h1⟩, if_pos ⟨fun hh => hcc hh.symm, h2⟩,
            numCommon_symm g c cp hnd]

theorem claim8_witness :
    cooccExampleKG.relations.Nodup ∧
    ((∀ code n list,
        getCodeCooccurrence cooccExampleKG "C1x" = .ok (code, n, list) →
        List.Pairwise (fun a b => b.count ≤ a.count) list ∧
        ∀ occ ∈ list,
          occ.count = numCommonQuotes cooccExampleKG "C1x" occ.code.name) ∧
      reportedCount cooccExampleKG "C1x" "C2x" =
        reportedCount cooccExampleKG "C2x" "C1x" ∧
      reportedCount cooccExampleKG "C1x" "C2x" = 1 ∧
      reportedCount cooccExampleKG "C2x" "C1x" = 1) :=
  ⟨by decide, claim8_cooccurrence cooccExampleKG "C1x" "C2x" (by decide)⟩

theorem mem_of_containsStr {l : List String} {a : String}
    (h : l.contains a = true) : a ∈ l := by
  rw [List.contains_iff_exists_mem_beq] at h
  obtain ⟨b, hb, hab⟩ := h
  rw [eq_of_beq hab]
  exact hb

theorem containsStr_of_mem {l : List String} {a : String} (h : a ∈ l) :
    l.contains a = true :=
  List.contains_iff_exists_mem_beq.mpr ⟨a, h, by simp⟩

theorem not_not_containsStr {l : List String} {a : String}
    (h : ¬ ((! l.contains a) = true)) : a ∈ l := by
  apply mem_of_containsStr
  cases hc : l.contains a with
  | true => rfl
  | false => exact absurd (by rw [hc]; decide) h

theorem status_ne_priority (a b : String) :
    ("status:" ++ a) ≠ ("priority:" ++ b) := by
  intro h
  have h2 := congrArg String.data h
  rw [String.data_append, String.data_append] at h2
  have h3 : ("status:").data = ['s','t','a','t','u','s',':'] := by decide
  have h4 : ("priority:").data = ['p','r','i','o','r','i','t','y',':'] := by
    decide
  rw [h3, h4] at h2
  simp only [List.cons_append, List.nil_append] at h2
  injection h2 with hh _
  exact absurd hh (by decide)

theorem forall₂_entityExt_names : ∀ {l1 l2 : List Entity},
    List.Forall₂ EntityExt l1 l2 →
    l2.map (fun e => e.name) = l1.map (fun e => e.name) := by
  intro l1 l2 h
  induction h with
  | nil => rfl
  | cons he _ ih =>
    rw [List.map_cons, List.map_cons, he.1, ih]

theorem wf_createEntities (g : KnowledgeGraph) (es : List Entity)
    (g2 : KnowledgeGraph) (delta : List Entity)
    (hnames : (es.map (·.name)).Nodup)
    (h : createEntities g es = .ok (g2, delta)) (hwf : WF g) : WF g2 := by
  unfold createEntities at h
  cases hv : es.find? (fun e => ! validateEntityType e.entityType) with
  | some e =>
    rw [hv] at h
    exact Except.noConfusion h
  | none =>
    rw [hv] at h
    simp only [Except.ok.injEq, Prod.mk.injEq] at h
    obtain ⟨hg2, _⟩ := h
    subst hg2
    obtain ⟨hnd, hrel⟩ := hwf
    constructor
    · show ((g.entities ++ es.filter
        (fun e => ! (entityNames g).contains e.name)).map
        (fun e => e.name)).Nodup
      rw [List.map_append, List.nodup_append]
      refine ⟨hnd, ?_, ?_⟩
      · exact List.Nodup.sublist
          (List.Sublist.map _ (List.filter_sublist es)) hnames
      · intro a ha hb
        obtain ⟨e, he, hen⟩ := List.mem_map.mp hb
        rw [List.mem_filter] at he
        have he2 : (! (entityNames g).contains e.name) = true := he.2
        have hcont : (entityNames g).contains e.name = true := by
          apply containsStr_of_mem
          show e.name ∈ entityNames g
          rw [hen]
          exact ha
        rw [hcont] at he2
        exact absurd he2 (by decide)
    · intro r hr
      obtain ⟨h1, h2⟩ := hrel r hr
      constructor
      · show r.«from» ∈ (g.entities ++ es.filter
          (fun e => ! (entityNames g).contains e.name)).map (fun e => e.name)
        rw [List.map_append]
        exact List.mem_append_left _ h1
      · show r.«to» ∈ (g.entities ++ es.filter
          (fun e => ! (entityNames g).contains e.name)).map (fun e => e.name)
        rw [List.map_append]
        exact List.mem_append_left _ h2

theorem validateRelations_ok_mem (names : List String) :
    ∀ rs : List Relation, validateRelations names rs = .ok () →
    ∀ r ∈ rs, r.«from» ∈ names ∧ r.«to» ∈ names := by
  intro rs
  induction rs with
  | nil =>
    intro _ r hr
    exact absurd hr (List.not_mem_nil r)
  | cons r0 rest ih =>
    intro h r hr
    unfold validateRelations at h
    by_cases h1 : (! names.contains r0.«from») = true
    · rw [if_pos h1] at h
      exact Except.noConfusion h
    · rw [if_neg h1] at h
      by_cases h2 : (! names.contains r0.«to») = true
      · rw [if_pos h2] at h
        exact Except.noConfusion h
      · rw [if_neg h2] at h
        by_cases h3 : (! validateRelationType r0.relationType) = true
        · rw [if_pos h3] at h
          exact Except.noConfusion h
        · rw [if_neg h3] at h
          rcases List.mem_cons.mp hr with heq | hr2
          · subst heq
            exact ⟨not_not_containsStr h1, not_not_containsStr h2⟩
          · exact ih h r hr2

theorem wf_createRelations (g : KnowledgeGraph) (rs : List Relation)
    (g2 : KnowledgeGraph) (delta : List Relation)
    (h : createRelations g rs = .ok (g2, delta)) (hwf : WF g) : WF g2 := by
  unfold createRelations at h
  cases hv : validateRelations (entityNames g) rs with
  | error e =>
    rw [hv] at h
    exact Except.noConfusion h
  | ok u =>
    cases u
    rw [hv] at h
    simp only [Except.ok.injEq, Prod.mk.injEq] at h
    obtain ⟨hg2, _⟩ := h
    subst hg2
    obtain ⟨hnd, hrel⟩ := hwf
    refine ⟨hnd, ?_⟩
    intro r hr
    have hr2 : r ∈ g.relations ++ rs.filter (fun r =>
        ! (g.relations.map relKey).contains (relKey r)) := hr
    rcases List.mem_append.mp hr2 with hold | hnew
    · exact hrel r hold
    · rw [List.mem_filter] at hnew
      exact validateRelations_ok_mem (entityNames g) rs hv r hnew.1

theorem wf_addObservations (g : KnowledgeGraph) (items : List ObservationAdd)
    (g2 : KnowledgeGraph) (res : List ObservationResult)
    (h : addObservations g items = .ok (g2, res)) (hwf : WF g) : WF g2 := by
  obtain ⟨_, hrels, hext, _⟩ := addObservationsAux_ok_spec items g g2 res h
  have hnames : g2.entities.map (fun e => e.name) =
      g.entities.map (fun e => e.name) := forall₂_entityExt_names hext
  obtain ⟨hnd, hrel⟩ := hwf
  constructor
  · show (g2.entities.map (fun e => e.name)).Nodup
    rw [hnames]
    exact hnd
  · intro r hr
    rw [hrels] at hr
    obtain ⟨h1, h2⟩ := hrel r hr
    constructor
    · show r.«from» ∈ g2.entities.map (fun e => e.name)
      rw [hnames]
      exact h1
    · show r.«to» ∈ g2.entities.map (fun e => e.name)
      rw [hnames]
      exact h2

theorem wf_deleteEntities (g : KnowledgeGraph) (names : List String)
    (hwf : WF g) : WF (deleteEntities g names) := by
  obtain ⟨hnd, hrel⟩ := hwf
  constructor
  · show ((g.entities.filter (fun e => ! names.contains e.name)).map
      (fun e => e.name)).Nodup
    exact List.Nodup.sublist
      (List.Sublist.map _ (List.filter_sublist g.entities)) hnd
  · intro r hr
    have hr2 : r ∈ g.relations.filter (fun r =>
        ! names.contains r.«from» && ! names.contains r.«to») := hr
    rw [List.mem_filter] at hr2
    have hp : (! names.contains r.«from» && ! names.contains r.«to») = true :=
      hr2.2
    rw [Bool.and_eq_true] at hp
    obtain ⟨h1, h2⟩ := hrel r hr2.1
    have h1m : r.«from» ∈ g.entities.map (fun e => e.name) := h1
    have h2m : r.«to» ∈ g.entities.map (fun e => e.name) := h2
    constructor
    · obtain ⟨e, he, hen⟩ := List.mem_map.mp h1m
      show r.«from» ∈ (g.entities.filter
        (fun e => ! names.contains e.name)).map (fun e => e.name)
      refine List.mem_map.mpr ⟨e, List.mem_filter.mpr ⟨he, ?_⟩, hen⟩
      show (! names.contains e.name) = true
      rw [hen]
      exact hp.1
    · obtain ⟨e, he, hen⟩ := List.mem_map.mp h2m
      show r.«to» ∈ (g.entities.filter
        (fun e => ! names.contains e.name)).map (fun e => e.name)
      refine List.mem_map.mpr ⟨e, List.mem_filter.mpr ⟨he, ?_⟩, hen⟩
      show (! names.contains e.name) = true
      rw [hen]
      exact hp.2

theorem removeObsFirst_names (n : String) (obs : List String) :
    ∀ es : List Entity,
    (removeObsFirst n obs es).map (fun e => e.name) =
      es.map (fun e => e.name) := by
  intro es
  induction es with
  | nil => rfl
  | cons e rest ih =>
    by_cases he : (e.name == n) = true
    · simp [removeObsFirst, he]
    · simp [removeObsFirst, he, ih]

theorem wf_deleteObservations (ds : List ObservationDeletion) :
    ∀ g : KnowledgeGraph, WF g → WF (deleteObservations g ds) := by
  induction ds with
  | nil =>
    intro g h
    exact h
  | cons d rest ih =>
    intro g hwf
    have hstep : deleteObservations g (d :: rest) = deleteObservations
        (if g.entities.any (fun e => e.name == d.entityName) then
          { g with entities :=
            removeObsFirst d.entityName d.observations g.entities }
         else g) rest := by
      unfold deleteObservations
      rw [List.foldl_cons]
    rw [hstep]
    apply ih
    by_cases hany : g.entities.any (fun e => e.name == d.entityName) = true
    · rw [if_pos hany]
      obtain ⟨hnd, hrel⟩ := hwf
      constructor
      · show ((removeObsFirst d.entityName d.observations g.entities).map
          (fun e => e.name)).Nodup
        rw [removeObsFirst_names]
        exact hnd
      · intro r hr
        obtain ⟨h1, h2⟩ := hrel r hr
        constructor
        · show r.«from» ∈ (removeObsFirst d.entityName d.observations
            g.entities).map (fun e => e.name)
          rw [removeObsFirst_names]
          exact h1
        · show r.«to» ∈ (removeObsFirst d.entityName d.observations
            g.entities).map (fun e => e.name)
          rw [removeObsFirst_names]
          exact h2
    · rw [if_neg hany]
      exact hwf

theorem wf_deleteRelations (g : KnowledgeGraph) (rs : List Relation)
    (hwf : WF g) : WF (deleteRelations g rs) := by
  obtain ⟨hnd, hrel⟩ := hwf
  refine ⟨hnd, ?_⟩
  intro r hr
  have hr2 : r ∈ g.relations.filter (fun r => ! rs.any
      (fun d => r.«from» == d.«from» && r.«to» == d.«to» &&
        r.relationType == d.relationType)) := hr
  exact hrel r (List.mem_filter.mp hr2).1

theorem wf_setEntityStatus (g : KnowledgeGraph) (n v : String)
    (g2 : KnowledgeGraph) (hn : n ∈ entityNames g)
    (hv : ("status:" ++ v) ∈ entityNames g)
    (h : setEntityStatus g n v = .ok g2) (hwf : WF g) : WF g2 := by
  by_cases hval : VALID_STATUS_VALUES.contains v = true
  · rw [setEntityStatus, if_pos hval] at h
    injection h with h
    subst h
    obtain ⟨hnd, hrel⟩ := hwf
    refine ⟨hnd, ?_⟩
    intro r hr
    have hr2 : r ∈ g.relations.filter (fun r =>
        ! (r.«from» == n && r.relationType == "has_status")) ++
        [{ «from» := n, «to» := "status:" ++ v,
           relationType := "has_status" }] := hr
    rcases List.mem_append.mp hr2 with hold | hnewm
    · exact hrel r (List.mem_filter.mp hold).1
    · rw [List.mem_singleton] at hnewm
      subst hnewm
      exact ⟨hn, hv⟩
  · rw [setEntityStatus, if_neg hval] at h
    exact Except.noConfusion h

theorem wf_setEntityPriority (g : KnowledgeGraph) (n v : String)
    (g2 : KnowledgeGraph) (hn : n ∈ entityNames g)
    (hv : ("priority:" ++ v) ∈ entityNames g)
    (h : setEntityPriority g n v = .ok g2) (hwf : WF g) : WF g2 := by
  by_cases hval : VALID_PRIORITY_VALUES.contains v = true
  · rw [setEntityPriority, if_pos hval] at h
    injection h with h
    subst h
    obtain ⟨hnd, hrel⟩ := hwf
    refine ⟨hnd, ?_⟩
    intro r hr
    have hr2 : r ∈ g.relations.filter (fun r =>
        ! (r.«from» == n && r.relationType == "has_priority")) ++
        [{ «from» := n, «to» := "priority:" ++ v,
           relationType := "has_priority" }] := hr
    rcases List.mem_append.mp hr2 with hold | hnewm
    · exact hrel r (List.mem_filter.mp hold).1
    · rw [List.mem_singleton] at hnewm
      subst hnewm
      exact ⟨hn, hv⟩
  · rw [setEntityPriority, if_neg hval] at h
    exact Except.noConfusion h

theorem ensureStatusEntity_inv (es : List Entity) (v : String)
    (hv : v ∈ VALID_STATUS_VALUES) (hnd : (es.map (fun e => e.name)).Nodup)
    (hres : resTypedEs es) :
    ((ensureStatusEntity es v).map (fun e => e.name)).Nodup ∧
    resTypedEs (ensureStatusEntity es v) ∧
    List.Sublist es (ensureStatusEntity es v) := by
  have heq : ensureStatusEntity es v =
      (if es.any (fun e => e.name == ("status:" ++ v) &&
          e.entityType == "status") then es
       else es ++ [Entity.mk ("status:" ++ v) "status"
         ["A " ++ v ++ " status value"]]) := rfl
  rw [heq]
  by_cases hany : es.any (fun e => e.name == ("status:" ++ v) &&
      e.entityType == "status") = true
  · rw [if_pos hany]
    exact ⟨hnd, hres, List.Sublist.refl es⟩
  · rw [if_neg hany]
    refine ⟨?_, ?_, List.sublist_append_left es _⟩
    · rw [List.map_append, List.nodup_append]
      refine ⟨hnd, List.nodup_singleton _, ?_⟩
      intro a ha hb
      rw [List.map_cons, List.map_nil, List.mem_singleton] at hb
      obtain ⟨e, he, hen⟩ := List.mem_map.mp ha
      have htype : e.entityType = "status" :=
        hres.1 v hv e he (by rw [hen, hb])
      apply hany
      refine List.any_eq_true.mpr ⟨e, he, ?_⟩
      rw [Bool.and_eq_true]
      constructor
      · show (e.name == "status:" ++ v) = true
        rw [hen, hb]
        exact beq_self_eq_true _
      · show (e.entityType == "status") = true
        rw [htype]
        exact beq_self_eq_true _
    · constructor
      · intro v2 hv2 e he hname
        rcases List.mem_append.mp he with h1 | h2
        · exact hres.1 v2 hv2 e h1 hname
        · rw [List.mem_singleton] at h2
          subst h2
          rfl
      · intro v2 hv2 e he hname
        rcases List.mem_append.mp he with h1 | h2
        · exact hres.2 v2 hv2 e h1 hname
        · rw [List.mem_singleton] at h2
          subst h2
          exact absurd hname (status_ne_priority v v2)

theorem ensurePriorityEntity_inv (es : List Entity) (v : String)
    (hv : v ∈ VALID_PRIORITY_VALUES) (hnd : (es.map (fun e => e.name)).Nodup)
    (hres : resTypedEs es) :
    ((ensurePriorityEntity es v).map (fun e => e.name)).Nodup ∧
    resTypedEs (ensurePriorityEntity es v) ∧
    List.Sublist es (ensurePriorityEntity es v) := by
  have heq : ensurePriorityEntity es v =
      (if es.any (fun e => e.name == ("priority:" ++ v) &&
          e.entityType == "priority") then es
       else es ++ [Entity.mk ("priority:" ++ v) "priority"
         ["A " ++ v ++ " priority value"]]) := rfl
  rw [heq]
  by_cases hany : es.any (fun e => e.name == ("priority:" ++ v) &&
      e.entityType == "priority") = true
  · rw [if_pos hany]
    exact ⟨hnd, hres, List.Sublist.refl es⟩
  · rw [if_neg hany]
    refine ⟨?_, ?_, List.sublist_append_left es _⟩
    · rw [List.map_append, List.nodup_append]
      refine ⟨hnd, List.nodup_singleton _, ?_⟩
      intro a ha hb
      rw [List.map_cons, List.map_nil, List.mem_singleton] at hb
      obtain ⟨e, he, hen⟩ := List.mem_map.mp ha
      have htype : e.entityType = "priority" :=
        hres.2 v hv e he (by rw [hen, hb])
      apply hany
      refine List.any_eq_true.mpr ⟨e, he, ?_⟩
      rw [Bool.and_eq_true]
      constructor
      · show (e.name == "priority:" ++ v) = true
        rw [hen, hb]
        exact beq_self_eq_true _
      · show (e.entityType == "priority") = true
        rw [htype]
        exact beq_self_eq_true _
    · constructor
      · intro v2 hv2 e he hname
        rcases List.mem_append.mp he with h1 | h2
        · exact hres.1 v2 hv2 e h1 hname
        · rw [List.mem_singleton] at h2
          subst h2
          exact absurd hname.symm (status_ne_priority v2 v)
      · intro v2 hv2 e he hname
        rcases List.mem_append.mp he with h1 | h2
        · exact hres.2 v2 hv2 e h1 hname
        · rw [List.mem_singleton] at h2
          subst h2
          rfl

theorem ensureStatus_fold_inv :
    ∀ (vs : List String), (∀ v ∈ vs, v ∈ VALID_STATUS_VALUES) →
    ∀ es : List Entity,
    (es.map (fun e => e.name)).Nodup → resTypedEs es →
    ((vs.foldl ensureStatusEntity es).map (fun e => e.name)).Nodup ∧
    resTypedEs (vs.foldl ensureStatusEntity es) ∧
    List.Sublist es (vs.foldl ensureStatusEntity es) := by
  intro vs
  induction vs with
  | nil =>
    intro _ es hnd hres
    exact ⟨hnd, hres, List.Sublist.refl es⟩
  | cons v rest ih =>
    intro hvs es hnd hres
    rw [List.foldl_cons]
    obtain ⟨h1, h2, h3⟩ := ensureStatusEntity_inv es v
      (hvs v (List.mem_cons_self v rest)) hnd hres
    obtain ⟨g1, g2, g3⟩ := ih (fun v2 hv2 => hvs v2 (List.mem_cons_of_mem _ hv2))
      (ensureStatusEntity es v) h1 h2
    exact ⟨g1, g2, List.Sublist.trans h3 g3⟩

theorem ensurePriority_fold_inv :
    ∀ (vs : List String), (∀ v ∈ vs, v ∈ VALID_PRIORITY_VALUES) →
    ∀ es : List Entity,
    (es.map (fun e => e.name)).Nodup → resTypedEs es →
    ((vs.foldl ensurePriorityEntity es).map (fun e => e.name)).Nodup ∧
    resTypedEs (vs.foldl ensurePriorityEntity es) ∧
    List.Sublist es (vs.foldl ensurePriorityEntity es) := by
  intro vs
  induction vs with
  | nil =>
    intro _ es hnd hres
    exact ⟨hnd, hres, List.Sublist.refl es⟩
  | cons v rest ih =>
    intro hvs es hnd hres
    rw [List.foldl_cons]
    obtain ⟨h1, h2, h3⟩ := ensurePriorityEntity_inv es v
      (hvs v (List.mem_cons_self v rest)) hnd hres
    obtain ⟨g1, g2, g3⟩ := ih (fun v2 hv2 => hvs v2 (List.mem_cons_of_mem _ hv2))
      (ensurePriorityEntity es v) h1 h2
    exact ⟨g1, g2, List.Sublist.trans h3 g3⟩

set_option maxHeartbeats 1600000 in
theorem wf_initializeStatusAndPriority (g : KnowledgeGraph)
    (hres : reservedNamesTyped g) (hwf : WF g) :
    WF (initializeStatusAndPriority g) := by
  obtain ⟨hnd, hrel⟩ := hwf
  have hresEs : resTypedEs g.entities := hres
  obtain ⟨s1, s2, s3⟩ := ensureStatus_fold_inv VALID_STATUS_VALUES
    (fun v hv => hv) g.entities hnd hresEs
  obtain ⟨p1, p2, p3⟩ := ensurePriority_fold_inv VALID_PRIORITY_VALUES
    (fun v hv => hv)
    (VALID_STATUS_VALUES.foldl ensureStatusEntity g.entities) s1 s2
  have hsubn : List.Sublist (g.entities.map (fun e => e.name))
      ((VALID_PRIORITY_VALUES.foldl ensurePriorityEntity
        (VALID_STATUS_VALUES.foldl ensureStatusEntity g.entities)).map
        (fun e => e.name)) :=
    List.Sublist.map _ (List.Sublist.trans s3 p3)
  have hE : (initializeStatusAndPriority g).entities =
      VALID_PRIORITY_VALUES.foldl ensurePriorityEntity
        (VALID_STATUS_VALUES.foldl ensureStatusEntity g.entities) := by
    unfold initializeStatusAndPriority
    dsimp only
  have hR : (initializeStatusAndPriority g).relations = g.relations := by
    unfold initializeStatusAndPriority
    dsimp only
  have hEN : entityNames (initializeStatusAndPriority g) =
      (VALID_PRIORITY_VALUES.foldl ensurePriorityEntity
        (VALID_STATUS_VALUES.foldl ensureStatusEntity g.entities)).map
        (fun e => e.name) := by
    unfold entityNames
    rw [hE]
  unfold WF
  refine ⟨?_, ?_⟩
  · rw [hEN]
    exact p1
  · intro r hr
    rw [hR] at hr
    obtain ⟨h1, h2⟩ := hrel r hr
    have h1m : r.«from» ∈ g.entities.map (fun e => e.name) := h1
    have h2m : r.«to» ∈ g.entities.map (fun e => e.name) := h2
    rw [hEN]
    exact ⟨hsubn.subset h1m, hsubn.subset h2m⟩

/-- C2 (amended): well-formedness — pairwise-distinct entity names and no
dangling relation endpoints — is an invariant of every graph reachable from
the empty graph through successful public mutating calls, provided
`createEntities` batches carry pairwise-distinct names, the status/priority
setters are applied to an existing entity and an existing value entity, and
`initializeStatusAndPriority` runs on graphs honouring the reserved-name
discipline. -/
theorem claim2_wf_invariant (g : KnowledgeGraph)
    (h : Relation.ReflTransGen Step emptyKG g) : WF g := by
  induction h with
  | refl => decide
  | tail _ hstep ih =>
    cases hstep with
    | createEntities es _ delta hnames hcall =>
      exact wf_createEntities _ es _ delta hnames hcall ih
    | createRelations rs _ delta hcall =>
      exact wf_createRelations _ rs _ delta hcall ih
    | addObservations items _ res hcall =>
      exact wf_addObservations _ items _ res hcall ih
    | deleteEntities names =>
      exact wf_deleteEntities _ names ih
    | deleteObservations ds =>
      exact wf_deleteObservations ds _ ih
    | deleteRelations rs =>
      exact wf_deleteRelations _ rs ih
    | initializeStatusAndPriority hres =>
      exact wf_initializeStatusAndPriority _ hres ih
    | setEntityStatus n v _ hn hv hcall =>
      exact wf_setEntityStatus _ n v _ hn hv hcall ih
    | setEntityPriority n v _ hn hv hcall =>
      exact wf_setEntityPriority _ n v _ hn hv hcall ih

/-- C2 counterexample to the claim as stated: with the operations exactly
as the code performs them (no side conditions), a single successful
`setEntityStatus` call on the empty graph reaches a graph with a dangling
relation, because `setEntityStatus` checks neither the entity nor the
status-value entity for existence. -/
theorem claim2_counterexample :
    ¬ (∀ g : KnowledgeGraph,
        Relation.ReflTransGen StepOrig emptyKG g → WF g) := by
  intro hall
  have hstep : StepOrig emptyKG (KnowledgeGraph.mk []
      [Relation.mk "X" "status:active" "has_status"]) :=
    StepOrig.setEntityStatus emptyKG "X" "active"
      (KnowledgeGraph.mk [] [Relation.mk "X" "status:active" "has_status"])
      (by decide)
  exact absurd (hall _ (Relation.ReflTransGen.single hstep)) (by decide)

theorem claim2_witness :
    Relation.ReflTransGen Step emptyKG
      (KnowledgeGraph.mk [Entity.mk "A" "code" []] []) ∧
    WF (KnowledgeGraph.mk [Entity.mk "A" "code" []] []) := by
  have hstep : Step emptyKG (KnowledgeGraph.mk [Entity.mk "A" "code" []] []) :=
    Step.createEntities emptyKG [Entity.mk "A" "code" []]
      (KnowledgeGraph.mk [Entity.mk "A" "code" []] [])
      [Entity.mk "A" "code" []] (by decide) (by decide)
  have hreach : Relation.ReflTransGen Step emptyKG
      (KnowledgeGraph.mk [Entity.mk "A" "code" []] []) :=
    Relation.ReflTransGen.single hstep
  exact ⟨hreach, claim2_wf_invariant _ hreach⟩

